import Mathlib

/-!
Verification of the repair-and-merge engine of the MQL5 economic-news data
pipeline (source: `News Pipeline/Script Merge/data_script_merge_batch_plus_monthly.py`).

The Python program is shallowly embedded: rows are records of optional
string cells (a missing cell models a pandas NaN), dataframes are lists of
rows, and every regular-expression or library call of the source is
implemented as an executable Lean function over character lists that is
faithful to the CPython semantics actually exercised by the program
(`re` matching, `str.strip`, `datetime.strptime`, set iteration, sorting).
Each definition carries a comment naming the Python function or expression
it embeds.
-/

namespace NewsPipeline

/-- Python `\d` character class (ASCII input). -/
def isDigitCh (c : Char) : Bool := 48 ≤ c.toNat && c.toNat ≤ 57

/-- Python `\w` character class (ASCII input): letters, digits, underscore. -/
def isWordCh (c : Char) : Bool :=
  isDigitCh c || (65 ≤ c.toNat && c.toNat ≤ 90) || (97 ≤ c.toNat && c.toNat ≤ 122) || c = '_'

/-- Python `\s` character class / `str.strip` whitespace set. -/
def isSpaceCh (c : Char) : Bool :=
  c = ' ' || c = '\t' || c = '\n' || c = '\r' || c.toNat = 11 || c.toNat = 12

/-- `str.strip()` with the default whitespace set, on a character list. -/
def pyStripL (l : List Char) : List Char :=
  ((l.dropWhile isSpaceCh).reverse.dropWhile isSpaceCh).reverse

/-- `str.strip(cs)` with an explicit character set. -/
def pyStripChars (cs : List Char) (l : List Char) : List Char :=
  ((l.dropWhile (cs.contains ·)).reverse.dropWhile (cs.contains ·)).reverse

/-- `str.strip()` on a `String`. -/
def pyStrip (s : String) : String := String.mk (pyStripL s.data)

/-- Decimal digit character for a value below 10. -/
def digitCh (n : Nat) : Char := Char.ofNat (48 + n)

/-- Fuelled accumulator loop behind `natToChars`. -/
def natToCharsGo : Nat → Nat → List Char → List Char
  | 0, _, acc => acc
  | f + 1, n, acc =>
    if n < 10 then digitCh n :: acc
    else natToCharsGo f (n / 10) (digitCh (n % 10) :: acc)

/-- Decimal rendering of a natural number, as Python `str(int)` / `f"{n}"` print it. -/
def natToChars (n : Nat) : List Char := natToCharsGo (n + 1) n []

/-- Decimal rendering of a natural number as a `String`. -/
def natToStr (n : Nat) : String := String.mk (natToChars n)

/-- `strftime` `%d`-style zero-padded two-digit rendering. -/
def pad2 (n : Nat) : String := if n < 10 then String.mk ('0' :: natToChars n) else natToStr n

/-- `strftime` `%Y`-style four-digit year rendering (years at hand are ≥ 1000). -/
def pad4 (n : Nat) : String :=
  if n < 10 then String.mk ('0' :: '0' :: '0' :: natToChars n)
  else if n < 100 then String.mk ('0' :: '0' :: natToChars n)
  else if n < 1000 then String.mk ('0' :: natToChars n)
  else natToStr n

/-- ASCII lower-casing of one character, as Python `str.lower`. -/
def toLowerCh (c : Char) : Char :=
  if 65 ≤ c.toNat && c.toNat ≤ 90 then Char.ofNat (c.toNat + 32) else c

/-- ASCII upper-casing of one character, as Python `str.upper`. -/
def toUpperCh (c : Char) : Char :=
  if 97 ≤ c.toNat && c.toNat ≤ 122 then Char.ofNat (c.toNat - 32) else c

/-- Python `str.capitalize()`: first character upper-cased, the rest lower-cased. -/
def pyCapitalize (l : List Char) : List Char :=
  match l with
  | [] => []
  | c :: rest => toUpperCh c :: rest.map toLowerCh

/-- Case-sensitive list-prefix test. -/
def isPrefList (p l : List Char) : Bool :=
  match p, l with
  | [], _ => true
  | _ :: _, [] => false
  | a :: p1, b :: l1 => a = b && isPrefList p1 l1

/-- Case-insensitive list-prefix test (for `re.IGNORECASE` literals). -/
def isPrefCI (p l : List Char) : Bool :=
  match p, l with
  | [], _ => true
  | _ :: _, [] => false
  | a :: p1, b :: l1 => toLowerCh a = toLowerCh b && isPrefCI p1 l1

/-- Substring occurrence test, Python `sub in s`. -/
def containsSub (sep : List Char) : List Char → Bool
  | [] => isPrefList sep []
  | c :: rest => isPrefList sep (c :: rest) || containsSub sep rest

/-- Nonnegative decimal value of a digit list (used for `int(group)`). -/
def digitsVal (l : List Char) : Nat := l.foldl (fun a c => a * 10 + (c.toNat - 48)) 0

/-- Python `str.isdigit()` on ASCII data: nonempty and all digits. -/
def pyIsDigit (l : List Char) : Bool := !l.isEmpty && l.all isDigitCh

/-! ### Regular-expression matchers

Each Python pattern used by the script is specialized into an executable
matcher with the same backtracking semantics. Kleene stars over character
classes recurse structurally on the input list. -/

/-- Matcher for `cls*` followed by a continuation (tries every split). -/
def starCls (p : Char → Bool) : List Char → (List Char → Bool) → Bool
  | [], k => k []
  | c :: rest, k => k (c :: rest) || (p c && starCls p rest k)

/-- Matcher for `cls+` followed by a continuation. -/
def plusCls (p : Char → Bool) (l : List Char) (k : List Char → Bool) : Bool :=
  match l with
  | [] => false
  | c :: rest => p c && starCls p rest k

/-- Matcher for an optional single character, `c?`. -/
def optCh (c : Char) (l : List Char) (k : List Char → Bool) : Bool :=
  k l || (match l with
          | [] => false
          | a :: rest => a = c && k rest)

/-- Matcher for `\d{1,2}` followed by a continuation (greedy with backtracking). -/
def d12 (l : List Char) (k : List Char → Bool) : Bool :=
  match l with
  | [] => false
  | a :: rest =>
    isDigitCh a &&
      (k rest || (match rest with
                  | [] => false
                  | b :: r2 => isDigitCh b && k r2))

/-- Matcher for `\w*day` (case-insensitive) followed by a continuation. -/
def wStarDay (l : List Char) (k : List Char → Bool) : Bool :=
  starCls isWordCh l (fun r => isPrefCI (String.data ("day")) r && k (r.drop 3))

/-- Matcher for a trailing `\s*$`. -/
def spacesEnd (l : List Char) : Bool := l.all isSpaceCh

/-- `re.match(r'^\d{1,2}\s+\w+,?\s*\w*day\s*$', s, re.IGNORECASE)` from `is_broken_date`. -/
def brokenPat1 (l : List Char) : Bool :=
  d12 l (fun r1 => plusCls isSpaceCh r1 (fun r2 => plusCls isWordCh r2 (fun r3 =>
    optCh ',' r3 (fun r4 => starCls isSpaceCh r4 (fun r5 =>
      wStarDay r5 spacesEnd)))))

/-- `re.match(r'^\w*day,?\s*\d{1,2}\s+\w+\s*$', s, re.IGNORECASE)` from `is_broken_date`. -/
def brokenPat2 (l : List Char) : Bool :=
  wStarDay l (fun r1 => optCh ',' r1 (fun r2 => starCls isSpaceCh r2 (fun r3 =>
    d12 r3 (fun r4 => plusCls isSpaceCh r4 (fun r5 =>
      plusCls isWordCh r5 spacesEnd)))))

/-- `re.match(r'^\d{1,2}\s+\w+\s*$', s, re.IGNORECASE)` from `is_broken_date`. -/
def brokenPat3 (l : List Char) : Bool :=
  d12 l (fun r1 => plusCls isSpaceCh r1 (fun r2 => plusCls isWordCh r2 spacesEnd))

/-- `re.match(r'^\w+\s+\d{1,2}\s*$', s, re.IGNORECASE)` from `is_broken_date`. -/
def brokenPat4 (l : List Char) : Bool :=
  plusCls isWordCh l (fun r1 => plusCls isSpaceCh r1 (fun r2 => d12 r2 spacesEnd))

/-- Scanner behind `findFirstYear`: `prevWord` tracks whether the previous
character was a word character, for the leading `\b`. -/
def findYearGo (prevWord : Bool) : List Char → Option Nat
  | [] => none
  | c :: rest =>
    if !prevWord && isDigitCh c then
      match rest with
      | b :: c2 :: e :: r4 =>
        if isDigitCh b && isDigitCh c2 && isDigitCh e &&
            (match r4 with | [] => true | x :: _ => !isWordCh x) then
          some (digitsVal [c, b, c2, e])
        else findYearGo (isWordCh c) rest
      | _ => findYearGo (isWordCh c) rest
    else findYearGo (isWordCh c) rest

/-- `re.search(r'\b(\d{4})\b', s)`, returning `int(group(1))` of the leftmost match. -/
def findFirstYear (l : List Char) : Option Nat := findYearGo false l

/-- `is_broken_date`: empty, matching a weekday/month-day-only pattern,
or carrying no 4-digit year token. (`pd.isna` is False on every actual
argument, which is always a Python `str`.) -/
def is_broken_date (s : String) : Bool :=
  if s.data.isEmpty then true
  else
    let t := pyStripL s.data
    if brokenPat1 t || brokenPat2 t || brokenPat3 t || brokenPat4 t then true
    else !(findFirstYear s.data).isSome

/-- The seven weekday names of the `re.sub` alternation in
`extract_month_day_from_broken_date`, in pattern order. -/
def weekdayNames : List (List Char) :=
  [String.data ("monday"), String.data ("tuesday"), String.data ("wednesday"),
   String.data ("thursday"), String.data ("friday"), String.data ("saturday"),
   String.data ("sunday")]

/-- Try each weekday-name alternative (case-insensitively) at the head of `l`,
requiring the trailing `\b`; returns the rest after the name. -/
def tryNames : List (List Char) → List Char → Option (List Char)
  | [], _ => none
  | n :: ns, l =>
    if isPrefCI n l &&
        (match l.drop n.length with | [] => true | x :: _ => !isWordCh x) then
      some (l.drop n.length)
    else tryNames ns l

/-- Consume the `,?\s*` tail of the weekday pattern. Returns the rest and
whether the last consumed character (or the name's final letter, if nothing
further was consumed) is a word character. -/
def consumeCommaSpaces (l : List Char) : List Char × Bool :=
  match l with
  | [] => ([], true)
  | c :: rest =>
    if c = ',' then (rest.dropWhile isSpaceCh, false)
    else if isSpaceCh c then (rest.dropWhile isSpaceCh, false)
    else (c :: rest, true)

/-- One attempted match of `\b(monday|…|sunday)\b,?\s*` at the current position. -/
def matchWeekday (l : List Char) : Option (List Char × Bool) :=
  match tryNames weekdayNames l with
  | none => none
  | some afterName => some (consumeCommaSpaces afterName)

/-- Fuelled scan behind `weekdaySub` (each step consumes at least one character). -/
def weekdaySubGo : Nat → Bool → List Char → List Char
  | 0, _, l => l
  | f + 1, prevWord, l =>
    match l with
    | [] => []
    | c :: rest =>
      match (if prevWord then none else matchWeekday (c :: rest)) with
      | some (rest2, lastWord) => weekdaySubGo f lastWord rest2
      | none => c :: weekdaySubGo f (isWordCh c) rest

/-- `re.sub(r'\b(monday|…|sunday)\b,?\s*', '', s, flags=re.IGNORECASE)`. -/
def weekdaySub (l : List Char) : List Char := weekdaySubGo (l.length + 1) false l

/-- `\s+(\w+)` continuation of the first extraction pattern: requires at least
one space, then captures the maximal word run. -/
def afterD (g : List Char) (r : List Char) : Option (List Char × List Char) :=
  match r with
  | [] => none
  | c :: rest =>
    if isSpaceCh c then
      let r2 := rest.dropWhile isSpaceCh
      let w := r2.takeWhile isWordCh
      if w.isEmpty then none else some (g, w)
    else none

/-- One attempted match of `(\d{1,2})\s+(\w+)` at the current position
(two digits tried before one, as the greedy quantifier does). -/
def tryD12SW (l : List Char) : Option (List Char × List Char) :=
  match l with
  | a :: b :: r =>
    if isDigitCh a && isDigitCh b then
      match afterD [a, b] r with
      | some g => some g
      | none => if isDigitCh a then afterD [a] (b :: r) else none
    else if isDigitCh a then afterD [a] (b :: r)
    else none
  | [_] => none
  | [] => none

/-- `re.search(r'(\d{1,2})\s+(\w+)', s)`: leftmost match, groups `(day, word)`. -/
def extSearch1 : List Char → Option (List Char × List Char)
  | [] => none
  | c :: rest =>
    match tryD12SW (c :: rest) with
    | some g => some g
    | none => extSearch1 rest

/-- One attempted match of `(\w+)\s+(\d{1,2})` at the current position. -/
def tryWSD (l : List Char) : Option (List Char × List Char) :=
  match l with
  | [] => none
  | c :: _ =>
    if isWordCh c then
      let w := l.takeWhile isWordCh
      let r := l.dropWhile isWordCh
      match r with
      | [] => none
      | s :: rest =>
        if isSpaceCh s then
          let r2 := rest.dropWhile isSpaceCh
          let d := (r2.takeWhile isDigitCh).take 2
          if d.isEmpty then none else some (w, d)
        else none
    else none

/-- `re.search(r'(\w+)\s+(\d{1,2})', s)`: leftmost match, groups `(word, day)`. -/
def extSearch2 : List Char → Option (List Char × List Char)
  | [] => none
  | c :: rest =>
    match tryWSD (c :: rest) with
    | some g => some g
    | none => extSearch2 rest

/-- `extract_month_day_from_broken_date`: strip weekday names, then try the
two patterns in order; build `f"{day} {month.capitalize()}"`. -/
def extract_month_day (brokenDate : List Char) : Option (List Char) :=
  let cleaned := pyStripChars [' ', ','] (weekdaySub brokenDate)
  match extSearch1 cleaned with
  | some (g1, g2) =>
    -- group(1) is all digits here, so `isdigit` holds: day := g1, month := g2
    some (g1 ++ ' ' :: pyCapitalize g2)
  | none =>
    match extSearch2 cleaned with
    | some (g1, g2) =>
      if pyIsDigit g1 then some (g1 ++ ' ' :: pyCapitalize g2)
      else some (g2 ++ ' ' :: pyCapitalize g1)
    | none => none

/-! ### Calendar arithmetic

Proleptic-Gregorian conversions (civil days ↔ day numbers since 1970-01-01),
with truncating division as in the reference algorithms; they model the date
arithmetic done through `datetime`/`pd.Timedelta`. -/

/-- Gregorian leap-year test. -/
def isLeap (y : Int) : Bool := (y % 4 = 0 && y % 100 ≠ 0) || y % 400 = 0

/-- Number of days of month `m` in year `y`. -/
def daysInMonth (y m : Int) : Int :=
  if m = 2 then (if isLeap y then 29 else 28)
  else if m = 4 || m = 6 || m = 9 || m = 11 then 30
  else 31

/-- Days since 1970-01-01 of the civil date `(y, m, d)`. -/
def daysFromCivil (y m d : Int) : Int :=
  let y1 := if m ≤ 2 then y - 1 else y
  let era := (if 0 ≤ y1 then y1 else y1 - 399).tdiv 400
  let yoe := y1 - era * 400
  let mp := (m + 9) % 12
  let doy := (153 * mp + 2).tdiv 5 + d - 1
  let doe := yoe * 365 + yoe.tdiv 4 - yoe.tdiv 100 + doy
  era * 146097 + doe - 719468

/-- Civil date `(y, m, d)` of the day number `z` (inverse of `daysFromCivil`). -/
def civilFromDays (z : Int) : Int × Int × Int :=
  let z1 := z + 719468
  let era := (if 0 ≤ z1 then z1 else z1 - 146096).tdiv 146097
  let doe := z1 - era * 146097
  let yoe := (doe - doe.tdiv 1460 + doe.tdiv 36524 - doe.tdiv 146096).tdiv 365
  let y := yoe + era * 400
  let doy := doe - (365 * yoe + yoe.tdiv 4 - yoe.tdiv 100)
  let mp := (5 * doy + 2).tdiv 153
  let d := doy - (153 * mp + 2).tdiv 5 + 1
  let m := if mp < 10 then mp + 3 else mp - 9
  (if m ≤ 2 then y + 1 else y, m, d)

/-- `datetime.weekday()`: Monday = 0, for the day number `z`
(1970-01-01 was a Thursday). -/
def weekdayMon (z : Int) : Int := (z + 3) % 7

/-- First representable whole day of a pandas `Timestamp` (1677-09-22). -/
def tsMinDay : Int := daysFromCivil 1677 9 22

/-- Last fully representable day of a pandas `Timestamp` (2262-04-10). -/
def tsMaxDay : Int := daysFromCivil 2262 4 10

/-! ### `datetime.strptime` on the script's format list -/

/-- Full month names with their numbers, for `%B` (matched case-insensitively). -/
def monthFullNames : List (List Char × Nat) :=
  [(String.data ("january"), 1), (String.data ("february"), 2),
   (String.data ("march"), 3), (String.data ("april"), 4),
   (String.data ("may"), 5), (String.data ("june"), 6),
   (String.data ("july"), 7), (String.data ("august"), 8),
   (String.data ("september"), 9), (String.data ("october"), 10),
   (String.data ("november"), 11), (String.data ("december"), 12)]

/-- Abbreviated month names with their numbers, for `%b`. -/
def monthAbbrNames : List (List Char × Nat) :=
  [(String.data ("jan"), 1), (String.data ("feb"), 2), (String.data ("mar"), 3),
   (String.data ("apr"), 4), (String.data ("may"), 5), (String.data ("jun"), 6),
   (String.data ("jul"), 7), (String.data ("aug"), 8), (String.data ("sep"), 9),
   (String.data ("oct"), 10), (String.data ("nov"), 11), (String.data ("dec"), 12)]

/-- `strftime('%b')`: abbreviated month name of month number `m`
(total, with a letter-final fallback off the 1–12 range). -/
def monthAbbr (m : Int) : String :=
  if m = 1 then ("Jan") else if m = 2 then ("Feb") else if m = 3 then ("Mar")
  else if m = 4 then ("Apr") else if m = 5 then ("May") else if m = 6 then ("Jun")
  else if m = 7 then ("Jul") else if m = 8 then ("Aug") else if m = 9 then ("Sep")
  else if m = 10 then ("Oct") else if m = 11 then ("Nov") else if m = 12 then ("Dec")
  else ("Xxx")

/-- `strftime('%B')`: full month name of month number `m`. -/
def monthName (m : Int) : String :=
  if m = 1 then ("January") else if m = 2 then ("February")
  else if m = 3 then ("March") else if m = 4 then ("April")
  else if m = 5 then ("May") else if m = 6 then ("June")
  else if m = 7 then ("July") else if m = 8 then ("August")
  else if m = 9 then ("September") else if m = 10 then ("October")
  else if m = 11 then ("November") else if m = 12 then ("December")
  else ("Unknown")

/-- `%d`/`%m`: one or two digits (two taken when available; a longer digit
run makes every format at hand fail either way). -/
def takeD12 (l : List Char) : Option (Nat × List Char) :=
  match l with
  | a :: b :: r =>
    if isDigitCh a && isDigitCh b then some (digitsVal [a, b], r)
    else if isDigitCh a then some (digitsVal [a], b :: r)
    else none
  | [a] => if isDigitCh a then some (digitsVal [a], []) else none
  | [] => none

/-- `%Y`: exactly four digits (as in CPython `_strptime`). -/
def takeD4 (l : List Char) : Option (Nat × List Char) :=
  match l with
  | a :: b :: c :: d :: r =>
    if isDigitCh a && isDigitCh b && isDigitCh c && isDigitCh d then
      some (digitsVal [a, b, c, d], r)
    else none
  | _ => none

/-- Whitespace in a `strptime` format string matches `\s+`. -/
def skipWs1 (l : List Char) : Option (List Char) :=
  match l with
  | c :: rest => if isSpaceCh c then some (rest.dropWhile isSpaceCh) else none
  | [] => none

/-- A literal separator character of a format string. -/
def expectCh (c : Char) (l : List Char) : Option (List Char) :=
  match l with
  | a :: rest => if a = c then some rest else none
  | [] => none

/-- Case-insensitive month-name lookup at the head of the input. -/
def takeMonthIn (tbl : List (List Char × Nat)) (l : List Char) : Option (Nat × List Char) :=
  match tbl with
  | [] => none
  | (n, v) :: rest =>
    if isPrefCI n l then some (v, l.drop n.length) else takeMonthIn rest l

/-- The `datetime` constructor's validity check after a full regex match
(`MINYEAR ≤ y`, real calendar day). -/
def mkDate (y m d : Nat) : Option (Int × Int × Int) :=
  if 1 ≤ y && 1 ≤ m && m ≤ 12 && 1 ≤ d && (d : Int) ≤ daysInMonth (y : Int) (m : Int) then
    some ((y : Int), (m : Int), (d : Int))
  else none

/-- `strptime` with format `'%d %B %Y'` (and `'%d %b %Y'` via the table argument). -/
def fmtDayNameYear (tbl : List (List Char × Nat)) (l : List Char) : Option (Int × Int × Int) :=
  match takeD12 l with
  | none => none
  | some (d, r1) =>
    match skipWs1 r1 with
    | none => none
    | some r2 =>
      match takeMonthIn tbl r2 with
      | none => none
      | some (m, r3) =>
        match skipWs1 r3 with
        | none => none
        | some r4 =>
          match takeD4 r4 with
          | some (y, []) => mkDate y m d
          | _ => none

/-- `strptime` with format `'%B %d %Y'` (and `'%b %d %Y'`). -/
def fmtNameDayYear (tbl : List (List Char × Nat)) (l : List Char) : Option (Int × Int × Int) :=
  match takeMonthIn tbl l with
  | none => none
  | some (m, r1) =>
    match skipWs1 r1 with
    | none => none
    | some r2 =>
      match takeD12 r2 with
      | none => none
      | some (d, r3) =>
        match skipWs1 r3 with
        | none => none
        | some r4 =>
          match takeD4 r4 with
          | some (y, []) => mkDate y m d
          | _ => none

/-- `strptime` with format `'%Y-%m-%d'`. -/
def fmtIso (l : List Char) : Option (Int × Int × Int) :=
  match takeD4 l with
  | none => none
  | some (y, r1) =>
    match expectCh '-' r1 with
    | none => none
    | some r2 =>
      match takeD12 r2 with
      | none => none
      | some (m, r3) =>
        match expectCh '-' r3 with
        | none => none
        | some r4 =>
          match takeD12 r4 with
          | some (d, []) => mkDate y m d
          | _ => none

/-- `strptime` with formats `'%d/%m/%Y'` / `'%m/%d/%Y'` (`dayFirst` chooses). -/
def fmtSlash (dayFirst : Bool) (l : List Char) : Option (Int × Int × Int) :=
  match takeD12 l with
  | none => none
  | some (a, r1) =>
    match expectCh '/' r1 with
    | none => none
    | some r2 =>
      match takeD12 r2 with
      | none => none
      | some (b, r3) =>
        match expectCh '/' r3 with
        | none => none
        | some r4 =>
          match takeD4 r4 with
          | some (y, []) => if dayFirst then mkDate y b a else mkDate y a b
          | _ => none

/-- The ordered format list of `generate_weekrange_from_date`: the first
format that parses wins. -/
def strptimeList (l : List Char) : Option (Int × Int × Int) :=
  match fmtDayNameYear monthFullNames l with
  | some v => some v
  | none =>
    match fmtDayNameYear monthAbbrNames l with
    | some v => some v
    | none =>
      match fmtNameDayYear monthFullNames l with
      | some v => some v
      | none =>
        match fmtNameDayYear monthAbbrNames l with
        | some v => some v
        | none =>
          match fmtIso l with
          | some v => some v
          | none =>
            match fmtSlash true l with
            | some v => some v
            | none => fmtSlash false l

/-- `str(cell)` of a pandas cell: a missing value (NaN) prints as `"nan"`. -/
def strOfCell : Option String → String
  | none => ("nan")
  | some s => s

/-- `generate_weekrange_from_date`: parse the date with the format list,
compute the Monday–Sunday week, and render it; any failure (no format
matched, or the `datetime`/`Timestamp` arithmetic raising out-of-bounds)
yields the empty string via the `except` clause. -/
def generate_weekrange_from_date (cell : Option String) : String :=
  let s := pyStripL (strOfCell cell).data
  match strptimeList s with
  | none => ""
  | some (y, m, d) =>
    let z := daysFromCivil y m d
    if z < tsMinDay || tsMaxDay < z then ""
    else
      let ws := z - weekdayMon z
      let we := ws + 6
      if ws < tsMinDay || tsMaxDay < we then ""
      else
        let c1 := civilFromDays ws
        let c2 := civilFromDays we
        if c1.2.1 = c2.2.1 then
          natToStr c1.2.2.toNat ++ " - " ++ natToStr c2.2.2.toNat ++ " " ++
            monthAbbr c2.2.1 ++ ", " ++ pad4 c2.1.toNat
        else
          pad2 c1.2.2.toNat ++ " " ++ monthAbbr c1.2.1 ++ " - " ++
            pad2 c2.2.2.toNat ++ " " ++ monthAbbr c2.2.1 ++ ", " ++ pad4 c2.1.toNat

/-- Modelled fragment of `pd.to_datetime(s, dayfirst=True, errors='coerce')`:
the day-first textual shapes `"D Month YYYY"` / `"D Mon YYYY"` taken by this
dataset's `Date` values; out-of-bounds timestamps coerce to `NaT` (`none`). -/
def toDatetimeDayfirst (s : String) : Option (Int × Int × Int) :=
  let l := pyStripL s.data
  let r :=
    match fmtDayNameYear monthFullNames l with
    | some v => some v
    | none => fmtDayNameYear monthAbbrNames l
  match r with
  | none => none
  | some (y, m, d) =>
    let z := daysFromCivil y m d
    if z < tsMinDay || tsMaxDay < z then none else some (y, m, d)

/-! ### `str.split` -/

/-- Fuelled loop behind `pySplit`: `acc` holds the current piece reversed;
every step consumes at least one character, so fuel `l.length + 1` is enough. -/
def pySplitGo : Nat → List Char → List Char → List Char → List (List Char)
  | 0, _, acc, l => [acc.reverse ++ l]
  | f + 1, sep, acc, l =>
    match l with
    | [] => [acc.reverse]
    | c :: rest =>
      if isPrefList sep (c :: rest) && !sep.isEmpty then
        acc.reverse :: pySplitGo f sep [] ((c :: rest).drop sep.length)
      else
        pySplitGo f sep (c :: acc) rest

/-- Python `s.split(sep)` for a nonempty separator. -/
def pySplit (sep : List Char) (l : List Char) : List (List Char) :=
  pySplitGo (l.length + 1) sep [] l

/-! ### Rows and dataframes

A row is the canonical 10-column record; a cell `none` models a pandas
missing value (NaN), which `str()` prints as `"nan"`. A dataframe is a list
of rows with positional labels (the `RangeIndex` the script works with). -/

/-- One record of the canonical 10-column schema (`EXPECTED_COLUMNS`). -/
structure Row where
  date : Option String
  time : Option String
  currency : Option String
  eventName : Option String
  impact : Option String
  actual : Option String
  forecast : Option String
  previous : Option String
  isHoliday : Option String
  weekRange : Option String
deriving DecidableEq, Repr

/-- `pd.isna` on a cell. -/
def cellIsNa : Option String → Bool
  | none => true
  | some _ => false

/-- `row.isna().sum()`: number of missing cells of a row. -/
def nanCount (r : Row) : Nat :=
  [r.date, r.time, r.currency, r.eventName, r.impact, r.actual, r.forecast,
   r.previous, r.isHoliday, r.weekRange].countP cellIsNa

/-- The three issue flags collected per row by `detect_and_fix_broken_rows`. -/
structure RowIssues where
  brokenDate : Bool
  missingWeekRange : Bool
  tooManyMissing : Bool
deriving DecidableEq, Repr

/-- The detection phase's per-row checks. -/
def rowIssues (r : Row) : RowIssues :=
  { brokenDate := is_broken_date (pyStrip (strOfCell r.date)),
    missingWeekRange := cellIsNa r.weekRange || pyStrip (strOfCell r.weekRange) = "",
    tooManyMissing := nanCount r > 3 }

/-- A row lands in `broken_rows` when any issue was recorded. -/
def issuesFlag (i : RowIssues) : Bool :=
  i.brokenDate || i.missingWeekRange || i.tooManyMissing

/-- The `broken_rows` list: indices (in order) with their issues. -/
def brokenRowsList (df : List Row) : List (Nat × RowIssues) :=
  df.enum.filterMap (fun p =>
    if issuesFlag (rowIssues p.2) then some (p.1, rowIssues p.2) else none)

/-- `df.loc[i, 'Date']` as a cell (`none` also off the index, never reached). -/
def dateCellAt (df : List Row) (i : Nat) : Option String :=
  (df.get? i).bind (fun r => r.date)

/-! ### CPython sets of small nonnegative ints, for `max(set(ys), key=ys.count)`

`fix_broken_date` picks `max(set(nearby_years), key=nearby_years.count)`,
so ties between equally frequent years are decided by the iteration order
of a CPython `set` — a hash table of eight slots for the sizes arising here
(CPython resizes at the fifth distinct element; beyond the modelled regime
an overflow list keeps insertion faithful to membership). `hash(n) = n` for
the year-sized ints involved. -/

/-- State of the modelled hash set: eight slots plus the overflow list. -/
structure PySetState where
  slots : List (Option Nat)
  overflow : List Nat
deriving DecidableEq, Repr

/-- Result of probing for a value. -/
inductive ProbeResult where
  | found : ProbeResult
  | placeAt : Nat → ProbeResult
  | exhausted : ProbeResult
deriving DecidableEq, Repr

/-- CPython-style probing (`j₀ = hash & mask`, then
`j ← (5·j + 1 + perturb) & mask`, `perturb ←  perturb >> 5`). -/
def probeLoop : Nat → List (Option Nat) → Nat → Nat → Nat → ProbeResult
  | 0, _, _, _, _ => .exhausted
  | f + 1, slots, x, j, perturb =>
    match slots.get? j with
    | some none => .placeAt j
    | some (some y) =>
      if y = x then .found
      else probeLoop f slots x ((5 * j + 1 + perturb) % 8) (perturb / 32)
    | none => .exhausted

/-- Insertion into the modelled set. -/
def setInsert (s : PySetState) (x : Nat) : PySetState :=
  match probeLoop 64 s.slots x (x % 8) x with
  | .found => s
  | .placeAt j => { s with slots := s.slots.set j (some x) }
  | .exhausted => { s with overflow := s.overflow ++ [x] }

/-- The empty modelled set. -/
def emptyPySet : PySetState := ⟨List.replicate 8 none, []⟩

/-- Iteration order of the set (ascending slot scan, as `set_next` does). -/
def setIterOf (s : PySetState) : List Nat := s.slots.filterMap id ++ s.overflow

/-- `list(set(xs))` in CPython iteration order. -/
def pySetIter (xs : List Nat) : List Nat := setIterOf (xs.foldl setInsert emptyPySet)

/-- `max(iter, key=xs.count)`: Python's `max` keeps the first element whose
key is strictly greater than the current best. (Python raises on an empty
iterable; the call site guarantees nonemptiness, `0` is a dead default.) -/
def pyMaxByCount (xs : List Nat) : List Nat → Nat
  | [] => 0
  | a :: rest => rest.foldl (fun cur y => if xs.count y > xs.count cur then y else cur) a

/-- `max(set(nearby_years), key=nearby_years.count)` from `fix_broken_date`. -/
def most_common_year (xs : List Nat) : Nat := pyMaxByCount xs (pySetIter xs)

/-! ### The Row Repair Engine -/

/-- The `nearby_years` list that `fix_broken_date`'s window scan collects:
for each row of the clipped window `[broken_idx-20, broken_idx+20]` other
than `broken_idx` itself, the first 4-digit year token of its Date. -/
def nearbyYearsOf (df : List Row) (idx : Nat) : List Nat :=
  let lo := idx - 20
  let hi := min df.length (idx + 20 + 1)
  ((List.range' lo (hi - lo)).filter (fun i => i ≠ idx)).filterMap
    (fun i => findFirstYear (pyStripL (strOfCell (dateCellAt df i)).data))

/-- `fix_broken_date(df, broken_idx)`: extract day/month from the broken
value, scan the ±20-row window for the first 4-digit year of each neighbour,
and rebuild `f"{month_day} {year}"`; default year 2024 when none is found. -/
def fix_broken_date (df : List Row) (idx : Nat) : String :=
  let broken := pyStrip (strOfCell (dateCellAt df idx))
  match extract_month_day broken.data with
  | none => broken
  | some md =>
    match nearbyYearsOf df idx with
    | [] => String.mk md ++ " " ++ natToStr 2024
    | _ :: _ => String.mk md ++ " " ++ natToStr (most_common_year (nearbyYearsOf df idx))

/-- The fixing phase's action for one entry of `broken_rows`: repair the
date in place, then (re)generate WeekRange from the just-updated date. -/
def applyRowFix (df : List Row) (p : Nat × RowIssues) : List Row :=
  let df1 :=
    if p.2.brokenDate then
      match df.get? p.1 with
      | some r => df.set p.1 { r with date := some (fix_broken_date df p.1) }
      | none => df
    else df
  if p.2.missingWeekRange then
    match df1.get? p.1 with
    | some r => df1.set p.1 { r with weekRange := some (generate_weekrange_from_date r.date) }
    | none => df1
  else df1

/-- `detect_and_fix_broken_rows`: detect all broken rows on the incoming
dataframe, then fix them one after the other, mutating as it goes. -/
def detect_and_fix_broken_rows (df : List Row) : List Row :=
  (brokenRowsList df).foldl applyRowFix df

/-! ### The Boundary-Year Corrector (`fix_december_week_overlap`) -/

/-- After the trailing digits and whitespace of `,\s*(\d{4})$`, a comma must
follow. -/
def yearSuffixTail (v : Nat) (l : List Char) : Option Nat :=
  match l with
  | c :: _ => if c = ',' then some v else none
  | [] => none

/-- Case split of `yearSuffix` on the reversed part. -/
def yearSuffixCore (rev : List Char) : Option Nat :=
  match rev with
  | d1 :: d2 :: d3 :: d4 :: rest =>
    if isDigitCh d1 && isDigitCh d2 && isDigitCh d3 && isDigitCh d4 then
      yearSuffixTail (digitsVal [d4, d3, d2, d1]) (rest.dropWhile isSpaceCh)
    else none
  | _ => none

/-- `re.search(r',\s*(\d{4})$', part)`: the part must end in a comma,
optional whitespace, and exactly four digits. -/
def yearSuffix (l : List Char) : Option Nat := yearSuffixCore l.reverse

/-- Tail of the per-row December fix, after the WeekRange years are in hand
and `pd.to_datetime(date_str, dayfirst=True, errors='coerce')` ran: `NaT`
skips; a non-December month or a year other than the end year skips; a
`Timestamp.replace` that would leave the representable range raises and is
caught (row kept); otherwise Date is re-rendered via `strftime('%d %B %Y')`
with the start year. -/
def decAfterParse (r : Row) (sy ey : Nat) (p : Option (Int × Int × Int)) : Row :=
  match p with
  | none => r
  | some (y, m, d) =>
    if m = 12 && y = (ey : Int) then
      if daysFromCivil (sy : Int) 12 d < tsMinDay || tsMaxDay < daysFromCivil (sy : Int) 12 d then r
      else { r with date := some (pad2 d.toNat ++ " " ++ monthName m ++ " " ++ pad4 sy) }
    else r

/-- Middle of the per-row December fix: both WeekRange parts must carry a
`,\s*(\d{4})$` year and the end year must exceed the start year, else the
row is skipped. -/
def decAfterYears (r : Row) (s e : Option Nat) : Row :=
  match s, e with
  | some sy, some ey =>
    if ey > sy then decAfterParse r sy ey (toDatetimeDayfirst (pyStrip (strOfCell r.date)))
    else r
  | _, _ => r

/-- The per-row body of `fix_december_week_overlap`'s loop: every bail-out
(`continue`) leaves the row unchanged; otherwise only `Date` is rewritten. -/
def fixDecemberRow (r : Row) : Row :=
  let weekRange := pyStrip (strOfCell r.weekRange)
  if weekRange = "" || !containsSub (String.data (" - ")) weekRange.data then r
  else
    match pySplit (String.data (" - ")) weekRange.data with
    | [q1, q2] => decAfterYears r (yearSuffix (pyStripL q1)) (yearSuffix (pyStripL q2))
    | _ => r

/-- `fix_december_week_overlap`: each row is inspected and possibly
corrected independently (the summary printing has no effect on the data). -/
def fix_december_week_overlap (df : List Row) : List Row := df.map fixDecemberRow

/-! ### The Structural Normalizer (`fix_csv_structure`)

The script counts raw commas of a line (`fields − 1`) and edits the comma
structure; a line is modelled by its comma-separated field list, on which
the edits act exactly as the built `fixed_parts` lists do: padding appends
`missing` empty trailing fields (`line + ',' + ','.join(['']*missing)`),
merging joins the surplus fields back with the delimiter. -/

/-- `len(EXPECTED_COLUMNS)`. -/
def expectedCols : Nat := 10

/-- The data-row branch of `fix_csv_structure`, on a line's field list. -/
def fixDataLineParts (parts : List String) : List String :=
  if parts.length < expectedCols then
    parts ++ List.replicate (expectedCols - parts.length) ""
  else if parts.length > expectedCols then
    parts.take (expectedCols - 1) ++
      [String.intercalate (",") (parts.drop (expectedCols - 1))]
  else parts

/-- The header branch of `fix_csv_structure`: pad when short, otherwise
leave as is (a long header is never truncated). -/
def fixHeaderLineParts (parts : List String) : List String :=
  if parts.length < expectedCols then
    parts ++ List.replicate (expectedCols - parts.length) ""
  else parts

/-! ### The Incremental Merge Engine -/

/-- `df.duplicated(keep='first')` scan: marks a row when an earlier row
(starting from `seen`) equals it. -/
def dupMaskGo (seen : List Row) : List Row → List Bool
  | [] => []
  | r :: rest => decide (r ∈ seen) :: dupMaskGo (seen ++ [r]) rest

/-- `combined.duplicated(keep='first')`. -/
def pdDuplicated (df : List Row) : List Bool := dupMaskGo [] df

/-- Boolean-mask row selection, `df[mask]`. -/
def maskSelect : List Row → List Bool → List Row
  | [], _ => []
  | _ :: _, [] => []
  | r :: rest, b :: bs => if b then r :: maskSelect rest bs else maskSelect rest bs

/-- `df.drop_duplicates()` (keep first occurrence). -/
def dropDuplicatesPd (df : List Row) : List Row :=
  maskSelect df ((pdDuplicated df).map (fun b => !b))

/-- One merge-loop union: `combined = concat([merged, batch])`,
`new_rows = combined[~combined.duplicated(keep='first')].iloc[len(merged):]`,
then `merged ++ new_rows` (appending nothing when no new rows). -/
def mergeStep (merged batch : List Row) : List Row :=
  let combined := merged ++ batch
  let keep := (pdDuplicated combined).map (fun b => !b)
  let filtered := maskSelect combined keep
  merged ++ filtered.drop merged.length

/-- `re.sub(r'[<>:"/\\|?*]', '', name)`: strip Windows-illegal characters. -/
def removeIllegalFilenameChars (s : String) : String :=
  String.mk (s.data.filter (fun c =>
    !(['<', '>', ':', '"', '/', '\\', '|', '?', '*'].contains c)))

/-- The merged-output file name of `main`: built from the *last processed*
monthly stem (`latest_monthly_csv` is reassigned every loop iteration) and
the main stem; the main stem alone when no monthly batch was found. -/
def mergedFilename (mainStem : String) (monthlyStems : List String) : String :=
  let base :=
    match monthlyStems.getLast? with
    | some latest =>
      let monthlyFirst := ((pySplit (String.data ("_to_")) latest.data).headD [])
      let mainParts := pySplit (String.data ("_to_")) mainStem.data
      String.mk monthlyFirst ++ "_to_" ++
        String.intercalate ("_to_") ((mainParts.drop 1).map String.mk)
    | none => mainStem
  removeIllegalFilenameChars base

/-! ### Batch discovery (`monthly_csv_files`) -/

/-- Suffix test on character lists. -/
def endsWithL (suf l : List Char) : Bool := isPrefList suf.reverse l.reverse

/-- `monthly_batches_root.glob("* Batch")` name filter: ends in `" Batch"`,
and glob's `*` does not match a leading dot. -/
def globStarBatch (name : String) : Bool :=
  match name.data with
  | [] => false
  | c :: _ => c ≠ '.' && endsWithL (String.data (" Batch")) name.data

/-- `folder.glob("*.csv")` name filter. -/
def globCsv (name : String) : Bool :=
  match name.data with
  | [] => false
  | c :: _ => c ≠ '.' && endsWithL (String.data (".csv")) name.data

/-- Python string `<`: lexicographic comparison by code point. -/
def listLtB : List Char → List Char → Bool
  | _, [] => false
  | [], _ :: _ => true
  | a :: as, b :: bs => decide (a < b) || (a = b && listLtB as bs)

/-- `<` on strings, on their character data. -/
def strLtB (a b : String) : Bool := listLtB a.data b.data

/-- `≤` on strings. -/
def strLeB (a b : String) : Bool := strLtB a b || a = b

/-- Path order on `(folder name, file name)` under a common root, as
`sorted` compares `Path` values componentwise. -/
def pathLe (a b : String × String) : Bool :=
  strLtB a.1 b.1 || (a.1 = b.1 && strLeB a.2 b.2)

/-- Stable insertion of Python's `sorted`: a new element goes after every
element less than or equal to it. -/
def insertSorted (x : String × String) : List (String × String) → List (String × String)
  | [] => [x]
  | a :: rest => if pathLe a x then a :: insertSorted x rest else x :: a :: rest

/-- Python `sorted` on paths (stable; order fully determined by `pathLe`). -/
def pySorted (l : List (String × String)) : List (String × String) :=
  l.foldr insertSorted []

/-- `sorted([f for folder in monthly_batches_root.glob("* Batch") for f in
folder.glob("*.csv")])`, over a directory listing of
`(folder name, file names)` entries. -/
def discoverMonthly (rootEntries : List (String × List String)) : List (String × String) :=
  pySorted ((rootEntries.filter (fun e => globStarBatch e.1)).foldr
    (fun e acc => (e.2.filter globCsv).map (fun f => (e.1, f)) ++ acc) [])

/-! ### The main run (`main`), at the granularity of loaded batches

A batch file is modelled as `Option (List Row)`: `none` stands for a file
whose read raises (or, for the base, for no base file existing). The merge
loop has no `try`/`except`, so an exception aborts the whole run. -/

/-- One iteration of `main`'s monthly-batch loop: an exception already in
flight propagates (there is no `try`/`except` in the loop, so an unreadable
batch raises out of the whole loop); otherwise the batch is repaired and
unioned in. -/
def mergeFoldStep (acc : Except Unit (List Row)) (inc : Option (List Row)) :
    Except Unit (List Row) :=
  match acc with
  | .error e => .error e
  | .ok m =>
    match inc with
    | none => .error ()
    | some bdf => .ok (mergeStep m (detect_and_fix_broken_rows bdf))

/-- `main`'s merge pipeline: load base (fatal on failure), repair, dedup;
fold the incremental batches (an unreadable one aborts); then the December
corrector and the final repair pass. -/
def runMerge (base : Option (List Row)) (incs : List (Option (List Row))) :
    Except Unit (List Row) :=
  match base with
  | none => .error ()
  | some b =>
    match incs.foldl mergeFoldStep (.ok (dropDuplicatesPd (detect_and_fix_broken_rows b))) with
    | .error e => .error e
    | .ok m => .ok (detect_and_fix_broken_rows (fix_december_week_overlap m))

/-- The spec's error-handling contract, stated as a definition for
comparison: identical pipeline, except that a read failure on an
incremental batch is caught per batch and skipped instead of aborting. -/
def specRunMergeSkipping (base : Option (List Row)) (incs : List (Option (List Row))) :
    Except Unit (List Row) :=
  match base with
  | none => .error ()
  | some b =>
    let m0 := dropDuplicatesPd (detect_and_fix_broken_rows b)
    let m := incs.foldl
      (fun m inc =>
        match inc with
        | none => m
        | some bdf => mergeStep m (detect_and_fix_broken_rows bdf))
      m0
    .ok (detect_and_fix_broken_rows (fix_december_week_overlap m))

/-! ### Memory-optimized loading (`load_csv_with_memory_optimization`) -/

/-- The dtypes `optimize_dataframe` manipulates. -/
inductive PdType where
  | objectT : PdType
  | categoryT : PdType
deriving DecidableEq, Repr

/-- A loaded dataframe: its rows plus the storage dtype of the three
`COLUMN_TYPES` category columns (Currency, Impact, IsHoliday). -/
structure PandasDF where
  rows : List Row
  curDtype : PdType
  impDtype : PdType
  holDtype : PdType
deriving DecidableEq, Repr

/-- A frame as `pd.read_csv` delivers it (object-typed columns). -/
def mkDF (rows : List Row) : PandasDF := ⟨rows, .objectT, .objectT, .objectT⟩

/-- `optimize_dataframe`: both branches of its `if` call `astype` with the
`COLUMN_TYPES` entry of the column (`'category'` for the three category
columns, `'object'` otherwise), so the `nunique` test does not change the
outcome; values and row order are untouched, only storage dtypes move. -/
def optimize_dataframe (df : PandasDF) : PandasDF :=
  { df with curDtype := .categoryT, impDtype := .categoryT, holDtype := .categoryT }

/-- Fuelled `read_csv(..., chunksize=10000)` chunking. -/
def chunksGo : Nat → List Row → List (List Row)
  | 0, l => if l.isEmpty then [] else [l]
  | f + 1, l =>
    match l with
    | [] => []
    | _ :: _ => l.take 10000 :: chunksGo f (l.drop 10000)

/-- The chunk sequence of a row list. -/
def chunksOf10000 (l : List Row) : List (List Row) := chunksGo (l.length + 1) l

/-- `pd.concat(chunks, ignore_index=True)`: rows concatenate in order;
per-chunk category dtypes with differing categories resolve to object. -/
def concatDFs (dfs : List PandasDF) : PandasDF :=
  ⟨(dfs.map (fun d => d.rows)).foldr (· ++ ·) [], .objectT, .objectT, .objectT⟩

/-- A batch file: its size in MB and its parsed rows. -/
structure CsvFile where
  sizeMB : Nat
  rows : List Row
deriving DecidableEq, Repr

/-- `load_csv_with_memory_optimization`: chunked loading over 100 MB,
whole-file loading otherwise. -/
def load_csv_with_memory_optimization (f : CsvFile) : PandasDF :=
  if f.sizeMB > 100 then
    concatDFs ((chunksOf10000 f.rows).map (fun c => optimize_dataframe (mkDF c)))
  else optimize_dataframe (mkDF f.rows)

/-! ## Theorems -/

/-- C6: For every data line with field count K = 10: fewer than K fields get
empty fields appended (original values in the same leading positions, result
exactly K fields); more than K fields get positions K−1 onward merged with the
delimiter into one final field (K fields total); exactly K fields pass through
unchanged; a short header is padded the same way and a long header is left
as is — never truncated. -/
theorem structural_normalizer_contract (parts : List String) :
    (parts.length < expectedCols →
      (fixDataLineParts parts).length = expectedCols ∧
      (fixDataLineParts parts).take parts.length = parts ∧
      (∀ x ∈ (fixDataLineParts parts).drop parts.length, x = "") ∧
      fixHeaderLineParts parts = fixDataLineParts parts) ∧
    (parts.length > expectedCols →
      (fixDataLineParts parts).length = expectedCols ∧
      (fixDataLineParts parts).take (expectedCols - 1) = parts.take (expectedCols - 1) ∧
      (fixDataLineParts parts).drop (expectedCols - 1) =
        [String.intercalate (",") (parts.drop (expectedCols - 1))] ∧
      fixHeaderLineParts parts = parts) ∧
    (parts.length = expectedCols →
      fixDataLineParts parts = parts ∧ fixHeaderLineParts parts = parts) := by
  refine ⟨fun h => ?_, fun h => ?_, fun h => ?_⟩
  · rw [fixDataLineParts, if_pos h, fixHeaderLineParts, if_pos h]
    refine ⟨?_, ?_, ?_, rfl⟩
    · simp [expectedCols] at h ⊢
      omega
    · simp
    · intro x hx
      rw [List.drop_append_of_le_length (le_refl _)] at hx
      simp at hx
      exact hx.2
  · have hne : ¬ parts.length < expectedCols := by omega
    rw [fixDataLineParts, if_neg hne, if_pos h, fixHeaderLineParts, if_neg hne]
    have hlen : (parts.take (expectedCols - 1)).length = expectedCols - 1 := by
      simp [expectedCols] at h ⊢
      omega
    refine ⟨?_, ?_, ?_, rfl⟩
    · rw [List.length_append, hlen]
      simp [expectedCols]
    · rw [List.take_append_of_le_length (le_of_eq hlen.symm), List.take_take, min_self]
    · rw [List.drop_append_of_le_length (le_of_eq hlen.symm),
        List.drop_eq_nil_of_le (le_of_eq hlen), List.nil_append]
  · have h1 : ¬ parts.length < expectedCols := by omega
    have h2 : ¬ parts.length > expectedCols := by omega
    rw [fixDataLineParts, if_neg h1, if_neg h2, fixHeaderLineParts, if_neg h1]
    exact ⟨rfl, rfl⟩

/-- Witness for C6 at a concrete short line, a concrete long line and a
concrete exact line. -/
theorem structural_normalizer_contract_witness :
    (fixDataLineParts [("a"), ("b")]).length = expectedCols ∧
    (fixDataLineParts [("1"), ("2"), ("3"), ("4"), ("5"), ("6"), ("7"), ("8"),
        ("9"), ("x"), ("y")]).drop (expectedCols - 1) = [("x,y")] ∧
    fixDataLineParts [("1"), ("2"), ("3"), ("4"), ("5"), ("6"), ("7"), ("8"),
        ("9"), ("0")] = [("1"), ("2"), ("3"), ("4"), ("5"), ("6"), ("7"), ("8"),
        ("9"), ("0")] := by
  refine ⟨((structural_normalizer_contract [("a"), ("b")]).1 (by decide)).1, ?_, ?_⟩
  · have h := (((structural_normalizer_contract [("1"), ("2"), ("3"), ("4"), ("5"),
      ("6"), ("7"), ("8"), ("9"), ("x"), ("y")]).2.1 (by decide)).2.2).1
    rw [h]
    decide
  · exact ((structural_normalizer_contract [("1"), ("2"), ("3"), ("4"), ("5"),
      ("6"), ("7"), ("8"), ("9"), ("0")]).2.2 (by decide)).1

/-- Concatenation of the fuelled chunking recovers the original row list. -/
theorem chunksGo_join (fuel : Nat) (l : List Row) (h : l.length < fuel) :
    ((chunksGo fuel l).map id).foldr (· ++ ·) [] = l := by
  induction fuel generalizing l with
  | zero => omega
  | succ f ih =>
    cases l with
    | nil => simp [chunksGo]
    | cons r rest =>
      rw [chunksGo]
      simp only [List.map_cons, List.foldr_cons]
      rw [ih ((r :: rest).drop 10000) (by simp at h ⊢; omega)]
      exact List.take_append_drop 10000 (r :: rest)

/-- C9: Loading a batch file — chunked for large files, whole-file otherwise —
always yields exactly the file's rows, in order; chunked and unchunked loading
agree observationally on the loaded data. -/
theorem chunked_loading_observationally_equal (f : CsvFile) :
    (load_csv_with_memory_optimization f).rows = f.rows ∧
    (load_csv_with_memory_optimization f).rows = (optimize_dataframe (mkDF f.rows)).rows := by
  have hrows : (load_csv_with_memory_optimization f).rows = f.rows := by
    rw [load_csv_with_memory_optimization]
    split
    · simp only [concatDFs]
      have : ((chunksOf10000 f.rows).map (fun c => optimize_dataframe (mkDF c))).map
          (fun d => d.rows) = (chunksOf10000 f.rows).map id := by
        rw [List.map_map]
        rfl
      rw [this]
      exact chunksGo_join (f.rows.length + 1) f.rows (by omega)
    · rfl
  exact ⟨hrows, hrows⟩

/-! ### Concrete data used by counterexamples and witnesses -/

/-- A fully populated row with the given Date and WeekRange cells. -/
def fullRow (d w : String) : Row :=
  { date := some d, time := some ("00:00"), currency := some ("USD"),
    eventName := some ("CPI"), impact := some ("low"), actual := some ("1"),
    forecast := some ("1"), previous := some ("1"), isHoliday := some ("False"),
    weekRange := some w }

/-- A row that every repair pass leaves alone. -/
def cleanRowA : Row := fullRow ("1 January 2021") ("28 Dec - 03 Jan, 2021")

/-- A second clean row, distinct from `cleanRowA`. -/
def cleanRowC : Row := fullRow ("5 January 2021") ("4 - 10 Jan, 2021")

/-- The batch refuting idempotence of the Row Repair Engine: the second
date is broken by the `^\w+\s+\d{1,2}\s*$` pattern yet carries the 4-digit
token `0999`, which the first pass consumes (year 999, rendered without four
digits) and then destroys, so the second pass repairs row 0 differently. -/
def c2Batch : List Row :=
  [fullRow ("5 Jan") ("1 - 7 Feb, 2021"), fullRow ("0999 12") ("1 - 7 Feb, 2021")]

/-- C2 counterexample: on `c2Batch` the second repair run changes the output
again (`repair∘repair ≠ repair`), and the second run detects broken rows. -/
theorem repair_engine_not_idempotent_cex :
    detect_and_fix_broken_rows (detect_and_fix_broken_rows c2Batch) ≠
      detect_and_fix_broken_rows c2Batch ∧
    brokenRowsList (detect_and_fix_broken_rows c2Batch) ≠ [] := by decide

/-- C2 amended: a second run of the Row Repair Engine is a no-op whenever the
first run's output has no detectable broken rows; the code does not guarantee
that in general (see the counterexample). -/
theorem repair_engine_second_pass_noop (df : List Row)
    (h : brokenRowsList (detect_and_fix_broken_rows df) = []) :
    detect_and_fix_broken_rows (detect_and_fix_broken_rows df) =
      detect_and_fix_broken_rows df := by
  have hunf : detect_and_fix_broken_rows (detect_and_fix_broken_rows df) =
      (brokenRowsList (detect_and_fix_broken_rows df)).foldl applyRowFix
        (detect_and_fix_broken_rows df) := rfl
  rw [hunf, h]
  rfl

/-- Witness for C2's amended theorem on a concrete clean batch. -/
theorem repair_engine_second_pass_noop_witness :
    detect_and_fix_broken_rows (detect_and_fix_broken_rows [cleanRowA]) =
      detect_and_fix_broken_rows [cleanRowA] :=
  repair_engine_second_pass_noop [cleanRowA] (by decide)

/-- Modelled from the spec's words, for comparison with the code: the output
name built from the *earliest-processed* incremental stem (the first of the
processing order) and the base stem. -/
def specFilenameEarliest (mainStem : String) (monthlyStems : List String) : String :=
  let base :=
    match monthlyStems.head? with
    | some earliest =>
      String.mk ((pySplit (String.data ("_to_")) earliest.data).headD []) ++ "_to_" ++
        String.intercalate ("_to_")
          (((pySplit (String.data ("_to_")) mainStem.data).drop 1).map String.mk)
    | none => mainStem
  removeIllegalFilenameChars base

/-- C5 counterexample: with two monthly stems the code names the output after
the last-processed stem, not the earliest-processed one. -/
theorem merged_filename_not_from_earliest_cex :
    mergedFilename ("A_to_B") [("m1_to_x"), ("m2_to_y")] = ("m2_to_B") ∧
    specFilenameEarliest ("A_to_B") [("m1_to_x"), ("m2_to_y")] = ("m1_to_B") ∧
    mergedFilename ("A_to_B") [("m1_to_x"), ("m2_to_y")] ≠
      specFilenameEarliest ("A_to_B") [("m1_to_x"), ("m2_to_y")] := by decide

/-- C5 amended: the output name is computed from the base stem and the
*latest-processed* monthly stem — it depends only on the last element of the
processing order — and, with no monthly batches, it is the base stem with
illegal filename characters stripped. -/
theorem merged_filename_from_latest (mainStem : String) (stems : List String)
    (s : String) (h : stems.getLast? = some s) :
    mergedFilename mainStem stems = mergedFilename mainStem [s] ∧
    mergedFilename mainStem [] = removeIllegalFilenameChars mainStem := by
  constructor
  · rw [mergedFilename, mergedFilename, h]
    rfl
  · rfl

/-- Witness for C5's amended theorem at concrete stems. -/
theorem merged_filename_from_latest_witness :
    mergedFilename ("A_to_B") [("m1_to_x"), ("m2_to_y")] =
      mergedFilename ("A_to_B") [("m2_to_y")] :=
  (merged_filename_from_latest ("A_to_B") [("m1_to_x"), ("m2_to_y")] ("m2_to_y")
    (by decide)).1

/-- An error already in flight swallows the rest of the loop. -/
theorem mergeFold_error_absorbs (incs : List (Option (List Row))) :
    incs.foldl mergeFoldStep (.error ()) = .error () := by
  induction incs with
  | nil => rfl
  | cons inc rest ih => exact ih

/-- The monthly-batch fold errors exactly when some batch fails to read. -/
theorem mergeFold_error_iff (incs : List (Option (List Row))) (m : List Row) :
    incs.foldl mergeFoldStep (.ok m) = .error () ↔ none ∈ incs := by
  induction incs generalizing m with
  | nil => simp [List.foldl]
  | cons inc rest ih =>
    cases inc with
    | none =>
      simp only [List.foldl_cons, List.mem_cons]
      rw [show mergeFoldStep (Except.ok m) none = .error () from rfl]
      rw [mergeFold_error_absorbs rest]
      simp
    | some bdf =>
      simp only [List.foldl_cons, List.mem_cons]
      rw [show mergeFoldStep (Except.ok m) (some bdf) =
        .ok (mergeStep m (detect_and_fix_broken_rows bdf)) from rfl]
      rw [ih]
      simp

/-- C8 counterexample: one unreadable incremental batch aborts the whole
run, although a later batch is perfectly readable; the spec's contract
(`specRunMergeSkipping`) would skip it and deliver the merged dataset. -/
theorem incremental_read_failure_aborts_cex :
    runMerge (some [cleanRowA]) [none, some [cleanRowC]] = .error () ∧
    specRunMergeSkipping (some [cleanRowA]) [none, some [cleanRowC]] =
      .ok [cleanRowA, cleanRowC] := ⟨rfl, rfl⟩

/-- C8 amended: the run aborts exactly when the base batch is unreadable or
absent, or *any* incremental batch is unreadable — an incremental read
failure is not caught and unwinds the whole loop. -/
theorem run_aborts_iff_any_read_failure (base : Option (List Row))
    (incs : List (Option (List Row))) :
    runMerge base incs = .error () ↔ base = none ∨ none ∈ incs := by
  cases base with
  | none => simp [runMerge]
  | some b =>
    rw [runMerge]
    constructor
    · intro h
      cases hf : incs.foldl mergeFoldStep
          (.ok (dropDuplicatesPd (detect_and_fix_broken_rows b))) with
      | error e =>
        exact Or.inr ((mergeFold_error_iff incs _).mp (by cases e; exact hf))
      | ok m =>
        rw [hf] at h
        exact absurd h (by simp)
    · intro h
      rcases h with h | h
      · exact absurd h (by simp)
      · have := (mergeFold_error_iff incs
          (dropDuplicatesPd (detect_and_fix_broken_rows b))).mpr h
        rw [this]

/-! ### C4: the merge step keeps the dataset as a prefix and appends
exactly the not-yet-present batch rows -/

/-- First-occurrence filter with an explicit seen-set, the combinatorial
content of `~combined.duplicated(keep='first')` selection. -/
def keepFirsts (seen : List Row) : List Row → List Row
  | [] => []
  | r :: rest =>
    if r ∈ seen then keepFirsts (seen ++ [r]) rest
    else r :: keepFirsts (seen ++ [r]) rest

/-- Modelled from the spec's words, for comparison with the code: walk the
incremental batch in order and append each row not already present (by full-row
equality) in the accumulated dataset. -/
def specUnionAppend (dataset : List Row) : List Row → List Row
  | [] => dataset
  | r :: rest =>
    if r ∈ dataset then specUnionAppend dataset rest
    else specUnionAppend (dataset ++ [r]) rest

/-- Selecting the non-duplicated positions is the first-occurrence filter. -/
theorem maskSelect_dupMask (l : List Row) : ∀ seen,
    maskSelect l ((dupMaskGo seen l).map (fun b => !b)) = keepFirsts seen l := by
  induction l with
  | nil => intro seen; rfl
  | cons r rest ih =>
    intro seen
    by_cases h : r ∈ seen <;>
      simp [dupMaskGo, maskSelect, keepFirsts, h, ih]

/-- The first-occurrence filter only looks at the seen-set through membership. -/
theorem keepFirsts_congr_seen (l : List Row) : ∀ seen1 seen2,
    (∀ x, x ∈ seen1 ↔ x ∈ seen2) → keepFirsts seen1 l = keepFirsts seen2 l := by
  induction l with
  | nil => intro _ _ _; rfl
  | cons r rest ih =>
    intro seen1 seen2 hmem
    have hnext : ∀ x, x ∈ seen1 ++ [r] ↔ x ∈ seen2 ++ [r] := by
      intro x
      simp [hmem x]
    by_cases h : r ∈ seen1
    · rw [keepFirsts, if_pos h, keepFirsts, if_pos ((hmem r).mp h), ih _ _ hnext]
    · rw [keepFirsts, if_neg h, keepFirsts, if_neg (fun hc => h ((hmem r).mpr hc)),
        ih _ _ hnext]

/-- The first-occurrence filter distributes over an append. -/
theorem keepFirsts_append (l1 : List Row) : ∀ seen (l2 : List Row),
    keepFirsts seen (l1 ++ l2) = keepFirsts seen l1 ++ keepFirsts (seen ++ l1) l2 := by
  induction l1 with
  | nil =>
    intro seen l2
    simp only [List.nil_append, keepFirsts]
    exact (keepFirsts_congr_seen l2 seen (seen ++ []) (by simp)).symm ▸ by
      rw [keepFirsts_congr_seen l2 (seen ++ []) seen (by simp)]
  | cons r rest ih =>
    intro seen l2
    by_cases h : r ∈ seen
    · rw [List.cons_append, keepFirsts, if_pos h, keepFirsts, if_pos h, ih,
        keepFirsts_congr_seen l2 (seen ++ [r] ++ rest) (seen ++ r :: rest) (by simp)]
    · rw [List.cons_append, keepFirsts, if_neg h, keepFirsts, if_neg h, ih,
        keepFirsts_congr_seen l2 (seen ++ [r] ++ rest) (seen ++ r :: rest) (by simp),
        List.cons_append]

/-- On a duplicate-free list disjoint from the seen-set, the filter keeps
everything. -/
theorem keepFirsts_of_nodup (l : List Row) : ∀ seen,
    (∀ x ∈ l, x ∉ seen) → l.Nodup → keepFirsts seen l = l := by
  induction l with
  | nil => intro _ _ _; rfl
  | cons r rest ih =>
    intro seen hdisj hnd
    have hr : r ∉ seen := hdisj r (List.mem_cons_self r rest)
    rw [keepFirsts, if_neg hr, ih (seen ++ [r])]
    · intro x hx
      simp only [List.mem_append, List.mem_singleton]
      rintro (hs | hev)
      · exact hdisj x (List.mem_cons_of_mem r hx) hs
      · exact (List.nodup_cons.mp hnd).1 (hev ▸ hx)
    · exact (List.nodup_cons.mp hnd).2

/-- The spec's walk equals dataset ++ first-occurrence-filtered batch. -/
theorem specUnionAppend_eq (batch : List Row) : ∀ dataset,
    specUnionAppend dataset batch = dataset ++ keepFirsts dataset batch := by
  induction batch with
  | nil => intro dataset; simp [specUnionAppend, keepFirsts]
  | cons r rest ih =>
    intro dataset
    by_cases h : r ∈ dataset
    · rw [specUnionAppend, if_pos h, keepFirsts, if_pos h, ih,
        keepFirsts_congr_seen rest (dataset ++ [r]) dataset (by
          intro x
          simp only [List.mem_append, List.mem_singleton]
          constructor
          · rintro (hx | hx)
            · exact hx
            · exact hx ▸ h
          · exact Or.inl)]
    · rw [specUnionAppend, if_neg h, keepFirsts, if_neg h, ih]
      simp

/-- C4: When an incremental batch is unioned against a duplicate-free
accumulated Dataset, the result is the Dataset followed by exactly those batch
rows with no full-row-equal match already present (walked in batch order), so
the prior Dataset is a prefix; concretely `[A, B] ∪ [B, C] = [A, B, C]`. -/
theorem merge_union_appends_new_rows :
    (∀ (merged batch : List Row), merged.Nodup →
      mergeStep merged batch = specUnionAppend merged batch ∧
      (mergeStep merged batch).take merged.length = merged) ∧
    mergeStep [cleanRowA, fullRow ("4 January 2021") ("4 - 10 Jan, 2021")]
        [fullRow ("4 January 2021") ("4 - 10 Jan, 2021"), cleanRowC] =
      [cleanRowA, fullRow ("4 January 2021") ("4 - 10 Jan, 2021"), cleanRowC] := by
  constructor
  · intro merged batch hnd
    have hunf : mergeStep merged batch = merged ++
        (maskSelect (merged ++ batch)
          ((dupMaskGo [] (merged ++ batch)).map (fun b => !b))).drop merged.length := rfl
    rw [hunf, maskSelect_dupMask, keepFirsts_append,
      keepFirsts_of_nodup merged [] (by simp) hnd,
      keepFirsts_congr_seen batch ([] ++ merged) merged (by simp),
      List.drop_left]
    exact ⟨(specUnionAppend_eq batch merged).symm, List.take_left merged _⟩
  · decide

/-- Witness for C4 at a concrete duplicate-free dataset. -/
theorem merge_union_appends_new_rows_witness :
    mergeStep [cleanRowA] [cleanRowC] = specUnionAppend [cleanRowA] [cleanRowC] ∧
    (mergeStep [cleanRowA] [cleanRowC]).take 1 = [cleanRowA] :=
  merge_union_appends_new_rows.1 [cleanRowA] [cleanRowC] (by decide)

/-! ### C1: discovery order of incremental batches -/

/-- Lexicographic comparison is trichotomous. -/
theorem listLtB_trichot : ∀ (x y : List Char),
    listLtB x y = true ∨ x = y ∨ listLtB y x = true := by
  intro x
  induction x with
  | nil =>
    intro y
    cases y with
    | nil => exact Or.inr (Or.inl rfl)
    | cons b bs => exact Or.inl rfl
  | cons a as ih =>
    intro y
    cases y with
    | nil => exact Or.inr (Or.inr rfl)
    | cons b bs =>
      rcases lt_trichotomy a b with h | h | h
      · exact Or.inl (by simp [listLtB, h])
      · subst h
        rcases ih bs with h2 | h2 | h2
        · exact Or.inl (by simp [listLtB, h2])
        · exact Or.inr (Or.inl (by rw [h2]))
        · exact Or.inr (Or.inr (by simp [listLtB, h2]))
      · exact Or.inr (Or.inr (by simp [listLtB, h]))

/-- Lexicographic comparison is transitive. -/
theorem listLtB_trans : ∀ (x y z : List Char),
    listLtB x y = true → listLtB y z = true → listLtB x z = true := by
  intro x
  induction x with
  | nil =>
    intro y z hxy hyz
    cases z with
    | nil =>
      cases y with
      | nil => exact hxy
      | cons b bs => exact absurd hyz (by simp [listLtB])
    | cons c cs => rfl
  | cons a as ih =>
    intro y z hxy hyz
    cases y with
    | nil => exact absurd hxy (by simp [listLtB])
    | cons b bs =>
      cases z with
      | nil => exact absurd hyz (by simp [listLtB])
      | cons c cs =>
        simp only [listLtB, Bool.or_eq_true, Bool.and_eq_true, decide_eq_true_eq] at hxy hyz ⊢
        rcases hxy with h1 | ⟨h1e, h1r⟩
        · rcases hyz with h2 | ⟨h2e, h2r⟩
          · exact Or.inl (lt_trans h1 h2)
          · exact Or.inl (h2e ▸ h1)
        · rcases hyz with h2 | ⟨h2e, h2r⟩
          · exact Or.inl (h1e ▸ h2)
          · exact Or.inr ⟨h1e.trans h2e, ih bs cs h1r h2r⟩

/-- The path order is total. -/
theorem pathLe_total (a b : String × String) :
    pathLe a b = true ∨ pathLe b a = true := by
  rcases a with ⟨a1, a2⟩
  rcases b with ⟨b1, b2⟩
  rcases listLtB_trichot a1.data b1.data with h | h | h
  · exact Or.inl (by simp [pathLe, strLtB, h])
  · have he : a1 = b1 := by
      cases a1; cases b1
      exact congrArg String.mk (by simpa using h)
    subst he
    rcases listLtB_trichot a2.data b2.data with h2 | h2 | h2
    · exact Or.inl (by simp [pathLe, strLeB, strLtB, h2])
    · have he2 : a2 = b2 := by
        cases a2; cases b2
        exact congrArg String.mk (by simpa using h2)
      exact Or.inl (by simp [pathLe, strLeB, strLtB, he2])
    · exact Or.inr (by simp [pathLe, strLeB, strLtB, h2])
  · exact Or.inr (by simp [pathLe, strLtB, h])

/-- The path order is transitive. -/
theorem pathLe_trans (a b c : String × String) :
    pathLe a b = true → pathLe b c = true → pathLe a c = true := by
  simp only [pathLe, strLtB, strLeB, Bool.or_eq_true, Bool.and_eq_true, decide_eq_true_eq]
  rintro (h1 | ⟨h1e, h1r | h1r⟩) (h2 | ⟨h2e, h2r | h2r⟩)
  · exact Or.inl (listLtB_trans _ _ _ h1 h2)
  · exact Or.inl (h2e ▸ h1)
  · exact Or.inl (h2e ▸ h1)
  · exact Or.inl (h1e ▸ h2)
  · exact Or.inr ⟨h1e.trans h2e, Or.inl (listLtB_trans _ _ _ h1r h2r)⟩
  · exact Or.inr ⟨h1e.trans h2e, Or.inl (h2r ▸ h1r)⟩
  · exact Or.inl (h1e ▸ h2)
  · exact Or.inr ⟨h1e.trans h2e, Or.inl (h1r ▸ h2r)⟩
  · exact Or.inr ⟨h1e.trans h2e, Or.inr (h1r.trans h2r)⟩

/-- Membership through stable insertion. -/
theorem insertSorted_mem (x y : String × String) : ∀ (l : List (String × String)),
    (y ∈ insertSorted x l ↔ y = x ∨ y ∈ l) := by
  intro l
  induction l with
  | nil => simp [insertSorted]
  | cons a rest ih =>
    by_cases h : pathLe a x
    · simp only [insertSorted, if_pos h, List.mem_cons, ih]
      try tauto
    · simp only [insertSorted, if_neg h, List.mem_cons]
      try tauto

/-- Stable insertion preserves sortedness under the path order. -/
theorem insertSorted_pairwise (x : String × String) : ∀ (l : List (String × String)),
    l.Pairwise (fun a b => pathLe a b = true) →
    (insertSorted x l).Pairwise (fun a b => pathLe a b = true) := by
  intro l
  induction l with
  | nil => intro _; simp [insertSorted]
  | cons a rest ih =>
    intro hp
    rcases List.pairwise_cons.mp hp with ⟨ha, hrest⟩
    by_cases h : pathLe a x
    · rw [insertSorted, if_pos h]
      refine List.pairwise_cons.mpr ⟨?_, ih hrest⟩
      intro y hy
      rcases (insertSorted_mem x y rest).mp hy with hx | hmem
      · exact hx ▸ h
      · exact ha y hmem
    · rw [insertSorted, if_neg h]
      refine List.pairwise_cons.mpr ⟨?_, hp⟩
      intro y hy
      have hxa : pathLe x a = true := by
        rcases pathLe_total a x with hc | hc
        · exact absurd hc (by simpa using h)
        · exact hc
      rcases List.mem_cons.mp hy with rfl | hmem
      · exact hxa
      · exact pathLe_trans x a y hxa (ha y hmem)

/-- `pySorted` sorts under the path order. -/
theorem pySorted_pairwise (l : List (String × String)) :
    (pySorted l).Pairwise (fun a b => pathLe a b = true) := by
  induction l with
  | nil => simp [pySorted]
  | cons a rest ih => exact insertSorted_pairwise a (pySorted rest) ih

/-- `pySorted` is a reordering: membership is preserved. -/
theorem pySorted_mem (y : String × String) : ∀ (l : List (String × String)),
    (y ∈ pySorted l ↔ y ∈ l) := by
  intro l
  induction l with
  | nil => simp [pySorted]
  | cons a rest ih =>
    rw [pySorted, List.foldr_cons]
    rw [show List.foldr insertSorted [] rest = pySorted rest from rfl] at *
    rw [insertSorted_mem, ih, List.mem_cons]
    try tauto

/-- C1 counterexample: with both period folders present, lexicographic
sorting of paths puts the "February 2021 Batch" file before the
"January 2021 Batch" file, the opposite of chronological order. -/
theorem discovery_not_chronological_cex :
    discoverMonthly [(("January 2021 Batch"), [("a.csv")]),
        (("February 2021 Batch"), [("a.csv")])] =
      [(("February 2021 Batch"), ("a.csv")), (("January 2021 Batch"), ("a.csv"))] ∧
    ([(("February 2021 Batch"), ("a.csv")), (("January 2021 Batch"), ("a.csv"))] ≠
      [(("January 2021 Batch"), ("a.csv")), (("February 2021 Batch"), ("a.csv"))]) := by
  decide

/-- C1 amended: batch files are processed in lexicographic order of
(subfolder name, file name) — which is not chronological for
"Month YYYY Batch" names — and the discovered set is exactly the `.csv`
files of the `* Batch` folders. -/
theorem discovery_lexicographic (entries : List (String × List String)) :
    (discoverMonthly entries).Pairwise (fun a b => pathLe a b = true) ∧
    (∀ p : String × String, p ∈ discoverMonthly entries ↔
      ∃ files, (p.1, files) ∈ entries ∧ globStarBatch p.1 = true ∧
        p.2 ∈ files ∧ globCsv p.2 = true) := by
  constructor
  · exact pySorted_pairwise _
  · intro p
    rw [discoverMonthly, pySorted_mem]
    have hfold : ∀ (l : List (String × List String)),
        (p ∈ l.foldr (fun e acc => (e.2.filter globCsv).map (fun f => (e.1, f)) ++ acc) [] ↔
          ∃ e ∈ l, p.1 = e.1 ∧ p.2 ∈ e.2.filter globCsv) := by
      intro l
      induction l with
      | nil => simp
      | cons e rest ih =>
        simp only [List.foldr_cons, List.mem_append, ih, List.mem_cons, List.mem_map]
        constructor
        · rintro (⟨f, hf, hfp⟩ | ⟨e2, he2, hp⟩)
          · refine ⟨e, Or.inl rfl, ?_, ?_⟩
            · rw [← hfp]
            · rw [← hfp]
              exact hf
          · exact ⟨e2, Or.inr he2, hp⟩
        · rintro ⟨e2, he2 | he2, hp1, hp2⟩
          · subst he2
            exact Or.inl ⟨p.2, hp2, by rw [← hp1]⟩
          · exact Or.inr ⟨e2, he2, hp1, hp2⟩
    rw [hfold]
    constructor
    · rintro ⟨e, he, hp1, hp2⟩
      rcases List.mem_filter.mp he with ⟨hel, heb⟩
      rcases List.mem_filter.mp hp2 with ⟨hpf, hpc⟩
      exact ⟨e.2, by rw [hp1]; exact hel, hp1 ▸ heb, hpf, hpc⟩
    · rintro ⟨files, hin, hb, hf, hc⟩
      refine ⟨(p.1, files), List.mem_filter.mpr ⟨hin, hb⟩, rfl, List.mem_filter.mpr ⟨hf, hc⟩⟩

/-! ### C3: the Boundary-Year Corrector -/

/-- Without an occurrence of the separator, the split loop only accumulates. -/
theorem pySplitGo_no_sep (sep : List Char) : ∀ (l : List Char) (fuel : Nat) (acc : List Char),
    containsSub sep l = false → l.length < fuel →
    pySplitGo fuel sep acc l = [acc.reverse ++ l] := by
  intro l
  induction l with
  | nil =>
    intro fuel acc _ hf
    cases fuel with
    | zero => omega
    | succ f => simp [pySplitGo]
  | cons c rest ih =>
    intro fuel acc hc hf
    cases fuel with
    | zero => omega
    | succ f =>
      rw [containsSub] at hc
      have hpref : isPrefList sep (c :: rest) = false := by
        cases hp : isPrefList sep (c :: rest) <;> simp [hp] at hc ⊢
      have hcond : ¬((isPrefList sep (c :: rest) && !sep.isEmpty) = true) := by
        rw [hpref]
        simp
      rw [pySplitGo, if_neg hcond]
      rw [ih f (c :: acc) (by cases hcc : containsSub sep rest <;> simp [hcc] at hc ⊢)
        (by simp at hf ⊢; omega)]
      simp

/-- A string without the separator splits into itself alone. -/
theorem pySplit_single_of_not_contains (sep l : List Char)
    (h : containsSub sep l = false) : pySplit sep l = [l] := by
  rw [pySplit, pySplitGo_no_sep sep l _ [] h (by omega)]
  simp

/-- C3 counterexample: a single-digit December day is re-rendered with
`strftime('%d %B %Y')`, whose `%d` zero-pads — `"05 December 2020"`, not the
claim's `"D Month YYYY"` rendering `"5 December 2020"`. -/
theorem december_corrector_zero_pads_cex :
    (fixDecemberRow (fullRow ("5 December 2021") ("28 Dec, 2020 - 3 Jan, 2021"))).date =
      some ("05 December 2020") ∧
    (("05 December 2020") : String) ≠ ("5 December 2020") := by decide

/-- C3 amended: for every row whose WeekRange splits on `" - "` into two parts
each ending in a comma and a 4-digit year with end year strictly above start
year, and whose Date parses (day-first) to a December date stamped with the
end year, the corrector rewrites the Date's year to the start year rendered
with `strftime('%d %B %Y')` — i.e. zero-padded `"DD Month YYYY"`; every other
row is left entirely unchanged; concretely, Date "31 December 2021" with
WeekRange "27 Dec, 2020 - 2 Jan, 2021" becomes "31 December 2020". -/
theorem december_corrector_contract :
    (∀ (r : Row) (q1 q2 : List Char) (sy ey : Nat) (d : Int),
      pySplit (String.data (" - ")) (pyStrip (strOfCell r.weekRange)).data = [q1, q2] →
      yearSuffix (pyStripL q1) = some sy →
      yearSuffix (pyStripL q2) = some ey →
      sy < ey →
      toDatetimeDayfirst (pyStrip (strOfCell r.date)) = some (((ey : Nat) : Int), 12, d) →
      ¬(daysFromCivil (sy : Int) 12 d < tsMinDay) →
      ¬(tsMaxDay < daysFromCivil (sy : Int) 12 d) →
      fixDecemberRow r =
        { r with date := some (pad2 d.toNat ++ " " ++ monthName 12 ++ " " ++ pad4 sy) }) ∧
    (∀ r : Row, fixDecemberRow r = r ∨ ∃ q1 q2 sy ey y d,
      pySplit (String.data (" - ")) (pyStrip (strOfCell r.weekRange)).data = [q1, q2] ∧
      yearSuffix (pyStripL q1) = some sy ∧
      yearSuffix (pyStripL q2) = some ey ∧ sy < ey ∧
      toDatetimeDayfirst (pyStrip (strOfCell r.date)) = some (y, 12, d) ∧ y = (ey : Int) ∧
      fixDecemberRow r =
        { r with date := some (pad2 d.toNat ++ " " ++ monthName 12 ++ " " ++ pad4 sy) }) ∧
    fixDecemberRow (fullRow ("31 December 2021") ("27 Dec, 2020 - 2 Jan, 2021")) =
      fullRow ("31 December 2020") ("27 Dec, 2020 - 2 Jan, 2021") := by
  have hpos : ∀ (r : Row) (q1 q2 : List Char) (sy ey : Nat) (y d : Int),
      pySplit (String.data (" - ")) (pyStrip (strOfCell r.weekRange)).data = [q1, q2] →
      yearSuffix (pyStripL q1) = some sy →
      yearSuffix (pyStripL q2) = some ey →
      sy < ey →
      toDatetimeDayfirst (pyStrip (strOfCell r.date)) = some (y, 12, d) →
      y = (ey : Int) →
      ¬(daysFromCivil (sy : Int) 12 d < tsMinDay) →
      ¬(tsMaxDay < daysFromCivil (sy : Int) 12 d) →
      fixDecemberRow r =
        { r with date := some (pad2 d.toNat ++ " " ++ monthName 12 ++ " " ++ pad4 sy) } := by
    intro r q1 q2 sy ey y d hsplit hsy hey hlt hparse hyey hb1 hb2
    subst hyey
    have hc : containsSub (String.data (" - ")) (pyStrip (strOfCell r.weekRange)).data = true := by
      by_contra hcne
      rw [Bool.not_eq_true] at hcne
      rw [pySplit_single_of_not_contains _ _ hcne] at hsplit
      simp at hsplit
    have hwr : ¬(pyStrip (strOfCell r.weekRange) = "") := by
      intro he
      rw [he] at hc
      exact absurd hc (by decide)
    have hcond : ¬((decide (pyStrip (strOfCell r.weekRange) = "") ||
        !containsSub (String.data (" - ")) (pyStrip (strOfCell r.weekRange)).data) = true) := by
      simp [hwr, hc]
    rw [fixDecemberRow]
    simp only [if_neg hcond]
    simp only [hsplit]
    rw [hsy, hey, decAfterYears, if_pos hlt, hparse, decAfterParse]
    simp [hb1, hb2]
  refine ⟨fun r q1 q2 sy ey d h1 h2 h3 h4 h5 h6 h7 =>
    hpos r q1 q2 sy ey ((ey : Nat) : Int) d h1 h2 h3 h4 h5 rfl h6 h7, ?_, by decide⟩
  intro r
  by_cases hg : (decide (pyStrip (strOfCell r.weekRange) = "") ||
      !containsSub (String.data (" - ")) (pyStrip (strOfCell r.weekRange)).data) = true
  · left
    rw [fixDecemberRow]
    simp only [if_pos hg]
  · rcases hsp : pySplit (String.data (" - ")) (pyStrip (strOfCell r.weekRange)).data with
      _ | ⟨q1, _ | ⟨q2, _ | ⟨q3, qt⟩⟩⟩
    · left
      rw [fixDecemberRow]
      simp only [if_neg hg]
      simp only [hsp]
    · left
      rw [fixDecemberRow]
      simp only [if_neg hg]
      simp only [hsp]
    · cases hy1 : yearSuffix (pyStripL q1) with
      | none =>
        left
        rw [fixDecemberRow]
        simp only [if_neg hg]
        simp only [hsp]
        rw [hy1, decAfterYears]
        intro sy2 ey2 hx _
        exact Option.noConfusion hx
      | some sy =>
        cases hy2 : yearSuffix (pyStripL q2) with
        | none =>
          left
          rw [fixDecemberRow]
          simp only [if_neg hg]
          simp only [hsp]
          rw [hy1, hy2, decAfterYears]
          intro sy2 ey2 _ hx
          exact Option.noConfusion hx
        | some ey =>
          by_cases hlt : ey > sy
          · cases hp : toDatetimeDayfirst (pyStrip (strOfCell r.date)) with
            | none =>
              left
              rw [fixDecemberRow]
              simp only [if_neg hg]
              simp only [hsp]
              rw [hy1, hy2, decAfterYears, if_pos hlt, hp, decAfterParse]
            | some t =>
              rcases t with ⟨y, m, d⟩
              by_cases hm : (m = 12 ∧ y = (ey : Int))
              · by_cases hb : (daysFromCivil (sy : Int) 12 d < tsMinDay ∨
                    tsMaxDay < daysFromCivil (sy : Int) 12 d)
                · left
                  rw [fixDecemberRow]
                  simp only [if_neg hg]
                  simp only [hsp]
                  rw [hy1, hy2, decAfterYears, if_pos hlt, hp, decAfterParse]
                  have hcnd : ((decide (m = 12) && decide (y = (ey : Int))) = true) := by
                    simp [hm.1, hm.2]
                  have hcb : ((decide (daysFromCivil (sy : Int) 12 d < tsMinDay) ||
                      decide (tsMaxDay < daysFromCivil (sy : Int) 12 d)) = true) := by
                    rcases hb with hb | hb <;> simp [hb]
                  rw [if_pos hcnd, if_pos hcb]
                · right
                  have hp12 : toDatetimeDayfirst (pyStrip (strOfCell r.date)) =
                      some (y, 12, d) := by
                    rw [hp, hm.1]
                  rw [not_or] at hb
                  refine ⟨q1, q2, sy, ey, y, d, rfl, hy1, hy2, hlt, by rw [hm.1], hm.2, ?_⟩
                  exact hpos r q1 q2 sy ey y d hsp hy1 hy2 hlt hp12 hm.2 hb.1 hb.2
              · left
                rw [fixDecemberRow]
                simp only [if_neg hg]
                simp only [hsp]
                rw [hy1, hy2, decAfterYears, if_pos hlt, hp, decAfterParse]
                have hcnd : ¬((decide (m = 12) && decide (y = (ey : Int))) = true) := by
                  simp only [Bool.and_eq_true, decide_eq_true_eq]
                  exact fun hc => hm hc
                rw [if_neg hcnd]
          · left
            rw [fixDecemberRow]
            simp only [if_neg hg]
            simp only [hsp]
            rw [hy1, hy2, decAfterYears, if_neg hlt]
    · left
      rw [fixDecemberRow]
      simp only [if_neg hg]
      simp only [hsp]

/-- Witness for C3's amended theorem at the spec's own example row. -/
theorem december_corrector_contract_witness :
    fixDecemberRow (fullRow ("31 December 2021") ("27 Dec, 2020 - 2 Jan, 2021")) =
      { fullRow ("31 December 2021") ("27 Dec, 2020 - 2 Jan, 2021") with
        date := some (pad2 (31 : Int).toNat ++ " " ++ monthName 12 ++ " " ++ pad4 2020) } :=
  december_corrector_contract.1 (fullRow ("31 December 2021") ("27 Dec, 2020 - 2 Jan, 2021"))
    (String.data ("27 Dec, 2020")) (String.data ("2 Jan, 2021")) 2020 2021 31
    (by decide) (by decide) (by decide) (by decide) (by decide) (by decide) (by decide)

/-! ### C10: WeekRanges made by the generator are invisible to the corrector -/

/-- Digits are not whitespace. -/
theorem isSpaceCh_eq_false_of_isDigitCh (c : Char) (hd : isDigitCh c = true) :
    isSpaceCh c = false := by
  simp only [isDigitCh, Bool.and_eq_true, decide_eq_true_eq] at hd
  cases hs : isSpaceCh c
  · rfl
  · exfalso
    simp only [isSpaceCh, Bool.or_eq_true, decide_eq_true_eq] at hs
    rcases hs with ((((h | h) | h) | h) | h) | h
    · rw [h] at hd
      exact absurd hd (by decide)
    · rw [h] at hd
      exact absurd hd (by decide)
    · rw [h] at hd
      exact absurd hd (by decide)
    · rw [h] at hd
      exact absurd hd (by decide)
    · omega
    · omega

/-- Digits are not the dash character. -/
theorem ne_dash_of_isDigitCh (c : Char) (hd : isDigitCh c = true) : c ≠ '-' := by
  intro h
  rw [h] at hd
  exact absurd hd (by decide)

/-- Digit characters for values below ten. -/
theorem digitCh_isDigit : ∀ k, k < 10 → isDigitCh (digitCh k) = true := by decide

/-- The rendering loop produces a nonempty, all-digit character list. -/
theorem natToCharsGo_spec : ∀ (fuel n : Nat) (acc : List Char),
    (∀ c ∈ acc, isDigitCh c = true) → n < fuel →
    ((∀ c ∈ natToCharsGo fuel n acc, isDigitCh c = true) ∧ natToCharsGo fuel n acc ≠ []) := by
  intro fuel
  induction fuel with
  | zero => omega
  | succ f ih =>
    intro n acc hacc hlt
    rw [natToCharsGo]
    by_cases h : n < 10
    · rw [if_pos h]
      refine ⟨?_, by simp⟩
      intro c hc
      rcases List.mem_cons.mp hc with rfl | hc
      · exact digitCh_isDigit n h
      · exact hacc c hc
    · rw [if_neg h]
      refine ih (n / 10) (digitCh (n % 10) :: acc) ?_ ?_
      · intro c hc
        rcases List.mem_cons.mp hc with rfl | hc
        · exact digitCh_isDigit (n % 10) (Nat.mod_lt n (by omega))
        · exact hacc c hc
      · have h1 : n / 10 < n := Nat.div_lt_self (by omega) (by omega)
        omega

/-- `natToChars` yields a nonempty all-digit list. -/
theorem natToChars_spec (n : Nat) :
    (∀ c ∈ natToChars n, isDigitCh c = true) ∧ natToChars n ≠ [] :=
  natToCharsGo_spec (n + 1) n [] (by simp) (by omega)

/-- `natToStr` data is nonempty and all digits. -/
theorem natToStr_digits (n : Nat) :
    (∀ c ∈ (natToStr n).data, isDigitCh c = true) ∧ (natToStr n).data ≠ [] :=
  natToChars_spec n

/-- Prepending zeros preserves the nonempty-all-digits property. -/
theorem cons_zero_digits (l : List Char) (h : ∀ c ∈ l, isDigitCh c = true) :
    (∀ c ∈ '0' :: l, isDigitCh c = true) ∧ ('0' :: l) ≠ [] := by
  refine ⟨?_, by simp⟩
  intro c hc
  rcases List.mem_cons.mp hc with rfl | hc
  · decide
  · exact h c hc

/-- `pad2` data is nonempty and all digits. -/
theorem pad2_digits (n : Nat) :
    (∀ c ∈ (pad2 n).data, isDigitCh c = true) ∧ (pad2 n).data ≠ [] := by
  rw [pad2]
  split
  · exact cons_zero_digits _ (natToChars_spec n).1
  · exact natToStr_digits n

/-- `pad4` data is nonempty and all digits. -/
theorem pad4_digits (n : Nat) :
    (∀ c ∈ (pad4 n).data, isDigitCh c = true) ∧ (pad4 n).data ≠ [] := by
  rw [pad4]
  split
  · exact cons_zero_digits _ (cons_zero_digits _ (cons_zero_digits _ (natToChars_spec n).1).1).1
  · split
    · exact cons_zero_digits _ (cons_zero_digits _ (natToChars_spec n).1).1
    · split
      · exact cons_zero_digits _ (natToChars_spec n).1
      · exact natToStr_digits n

set_option maxHeartbeats 1000000 in
/-- The thirteen possible outcomes of `monthAbbr`. -/
theorem monthAbbr_mem (m : Int) : monthAbbr m ∈
    ([("Jan"), ("Feb"), ("Mar"), ("Apr"), ("May"), ("Jun"), ("Jul"), ("Aug"),
      ("Sep"), ("Oct"), ("Nov"), ("Dec"), ("Xxx")] : List String) := by
  delta monthAbbr
  split
  · decide
  split
  · decide
  split
  · decide
  split
  · decide
  split
  · decide
  split
  · decide
  split
  · decide
  split
  · decide
  split
  · decide
  split
  · decide
  split
  · decide
  split
  · decide
  decide

/-- Month abbreviations end in a letter and contain no dash and no space. -/
theorem monthAbbr_shape (m : Int) :
    ∃ c rest, (monthAbbr m).data.reverse = c :: rest ∧ isDigitCh c = false ∧
      isSpaceCh c = false ∧ ('-' ∉ (monthAbbr m).data) ∧ (monthAbbr m).data ≠ [] := by
  have hm := monthAbbr_mem m
  simp only [List.mem_cons, List.not_mem_nil, or_false] at hm
  rcases hm with h | h | h | h | h | h | h | h | h | h | h | h | h <;> rw [h] <;>
    exact ⟨_, _, rfl, by decide, by decide, by decide, by decide⟩

/-- A prefix of a list has all its elements in the list. -/
theorem mem_of_isPrefList : ∀ (p l : List Char), isPrefList p l = true → ∀ x ∈ p, x ∈ l := by
  intro p
  induction p with
  | nil => intro l _ x hx; exact absurd hx (by simp)
  | cons a p1 ih =>
    intro l hp x hx
    cases l with
    | nil => exact absurd hp (by simp [isPrefList])
    | cons b l1 =>
      simp only [isPrefList, Bool.and_eq_true, decide_eq_true_eq] at hp
      rcases List.mem_cons.mp hx with rfl | hx
      · exact hp.1 ▸ List.mem_cons_self b l1
      · exact List.mem_cons_of_mem b (ih l1 hp.2 x hx)

/-- A list is a prefix of itself extended. -/
theorem isPrefList_append_self : ∀ (l x : List Char), isPrefList l (l ++ x) = true := by
  intro l
  induction l with
  | nil => intro x; rfl
  | cons a l1 ih => intro x; simp [isPrefList, ih x]

/-- The separator occurs in `A ++ sep ++ B`. -/
theorem containsSub_append_self : ∀ (A : List Char) (sep B : List Char), sep ≠ [] →
    containsSub sep (A ++ sep ++ B) = true := by
  intro A
  induction A with
  | nil =>
    intro sep B hsep
    cases sep with
    | nil => exact absurd rfl hsep
    | cons s0 s1 =>
      rw [show ([] : List Char) ++ (s0 :: s1) ++ B = s0 :: (s1 ++ B) by simp]
      rw [containsSub]
      rw [show s0 :: (s1 ++ B) = (s0 :: s1) ++ B from (List.cons_append s0 s1 B).symm]
      rw [isPrefList_append_self]
      rfl
  | cons a A1 ih =>
    intro sep B hsep
    rw [show (a :: A1) ++ sep ++ B = a :: (A1 ++ sep ++ B) by simp]
    rw [containsSub, ih sep B hsep]
    simp

/-- A list missing some separator character cannot contain the separator. -/
theorem containsSub_eq_false_of_not_mem (sep : List Char) (x : Char) (hx : x ∈ sep) :
    ∀ (l : List Char), x ∉ l → containsSub sep l = false := by
  intro l
  induction l with
  | nil =>
    intro _
    cases sep with
    | nil => exact absurd hx (by simp)
    | cons s0 s1 => rfl
  | cons c rest ih =>
    intro hnl
    rw [containsSub]
    have h1 : isPrefList sep (c :: rest) = false := by
      cases hp : isPrefList sep (c :: rest)
      · rfl
      · exact absurd (mem_of_isPrefList sep (c :: rest) hp x hx) hnl
    rw [h1, ih (fun hm => hnl (List.mem_cons_of_mem c hm))]
    rfl

/-- Splitting `A ++ " - " ++ B` when neither side contains a dash. -/
theorem pySplitGo_sep_mid : ∀ (A : List Char) (fuel : Nat) (acc B : List Char),
    ('-' ∉ A) → ('-' ∉ B) → (A ++ [' ', '-', ' '] ++ B).length < fuel →
    pySplitGo fuel [' ', '-', ' '] acc (A ++ [' ', '-', ' '] ++ B) =
      [acc.reverse ++ A, B] := by
  intro A
  induction A with
  | nil =>
    intro fuel acc B _ hB hf
    cases fuel with
    | zero => simp at hf
    | succ f =>
      rw [show ([] : List Char) ++ [' ', '-', ' '] ++ B = ' ' :: ('-' :: ' ' :: B) by simp]
      rw [pySplitGo]
      rw [if_pos (by simp [isPrefList])]
      have hcs : containsSub [' ', '-', ' '] B = false :=
        containsSub_eq_false_of_not_mem _ '-' (by decide) B hB
      have hlen : B.length < f := by
        simp at hf
        omega
      rw [show (' ' :: ('-' :: ' ' :: B)).drop ([' ', '-', ' '] : List Char).length = B from rfl]
      rw [pySplitGo_no_sep _ B f [] hcs hlen]
      simp
  | cons a A1 ih =>
    intro fuel acc B hA hB hf
    cases fuel with
    | zero => simp at hf
    | succ f =>
      rw [show (a :: A1) ++ [' ', '-', ' '] ++ B = a :: (A1 ++ [' ', '-', ' '] ++ B) by simp]
      rw [pySplitGo]
      have hnp : isPrefList [' ', '-', ' '] (a :: (A1 ++ [' ', '-', ' '] ++ B)) = false := by
        cases A1 with
        | nil => simp [isPrefList]
        | cons c A2 =>
          have hc1 : ¬(c = '-') := fun h =>
            hA (h ▸ List.mem_cons_of_mem a (List.mem_cons_self c A2))
          have hc : ¬('-' = c) := fun h => hc1 h.symm
          rw [show (c :: A2) ++ [' ', '-', ' '] ++ B = c :: (A2 ++ [' ', '-', ' '] ++ B) by simp]
          simp [isPrefList, hc]
      have hcond : ¬((isPrefList [' ', '-', ' '] (a :: (A1 ++ [' ', '-', ' '] ++ B)) &&
          !([' ', '-', ' '] : List Char).isEmpty) = true) := by
        rw [hnp]
        simp
      rw [if_neg hcond]
      rw [ih f (a :: acc) B (fun hm => hA (List.mem_cons_of_mem a hm)) hB
        (by simp at hf ⊢; omega)]
      simp

/-- `pySplit` on `A ++ " - " ++ B` with dash-free sides gives `[A, B]`. -/
theorem pySplit_mid (A B : List Char) (hA : '-' ∉ A) (hB : '-' ∉ B) :
    pySplit (String.data (" - ")) (A ++ String.data (" - ") ++ B) = [A, B] := by
  rw [show String.data (" - ") = ([' ', '-', ' '] : List Char) from rfl]
  rw [pySplit, pySplitGo_sep_mid A _ [] B hA hB (by omega)]
  simp

/-- `dropWhile` is the identity when the head does not satisfy the predicate. -/
theorem dropWhile_id_of_head (p : Char → Bool) : ∀ (l : List Char),
    (∀ c, l.head? = some c → p c = false) → l.dropWhile p = l := by
  intro l h
  cases l with
  | nil => rfl
  | cons c rest => simp [List.dropWhile_cons, h c rfl]

/-- `str.strip()` is the identity on a string with non-space first and last
characters. -/
theorem pyStripL_id (l : List Char)
    (h1 : ∀ c, l.head? = some c → isSpaceCh c = false)
    (h2 : ∀ c, l.reverse.head? = some c → isSpaceCh c = false) : pyStripL l = l := by
  rw [pyStripL, dropWhile_id_of_head _ l h1, dropWhile_id_of_head _ l.reverse h2,
    List.reverse_reverse]

/-- `yearSuffix` fails on an all-digit part: the mandatory comma is missing. -/
theorem yearSuffix_none_of_all_digits (l : List Char)
    (h : ∀ c ∈ l, isDigitCh c = true) : yearSuffix l = none := by
  have hrev : ∀ c ∈ l.reverse, isDigitCh c = true := fun c hc => h c (List.mem_reverse.mp hc)
  rw [yearSuffix]
  rcases hr : l.reverse with _ | ⟨d1, _ | ⟨d2, _ | ⟨d3, _ | ⟨d4, rest⟩⟩⟩⟩
  · rfl
  · rfl
  · rfl
  · rfl
  · rw [hr] at hrev
    rw [yearSuffixCore]
    have h1 : isDigitCh d1 = true := hrev d1 (by simp)
    have h2 : isDigitCh d2 = true := hrev d2 (by simp)
    have h3 : isDigitCh d3 = true := hrev d3 (by simp)
    have h4 : isDigitCh d4 = true := hrev d4 (by simp)
    rw [if_pos (by simp [h1, h2, h3, h4])]
    have hrest : ∀ c ∈ rest, isDigitCh c = true := fun c hc => hrev c (by simp [hc])
    cases rest with
    | nil => rfl
    | cons c0 r0 =>
      have hc0 : isDigitCh c0 = true := hrest c0 (List.mem_cons_self c0 r0)
      have hdrop : (c0 :: r0).dropWhile isSpaceCh = c0 :: r0 := by
        rw [List.dropWhile_cons, isSpaceCh_eq_false_of_isDigitCh c0 hc0]
        simp
      rw [hdrop, yearSuffixTail]
      have hnc : ¬(c0 = ',') := fun h0 => by
        rw [h0] at hc0
        exact absurd hc0 (by decide)
      rw [if_neg hnc]

/-- `yearSuffix` fails on a part whose last character is not a digit. -/
theorem yearSuffix_none_of_last_not_digit (l : List Char) (c : Char) (rest : List Char)
    (hr : l.reverse = c :: rest) (hc : isDigitCh c = false) : yearSuffix l = none := by
  rw [yearSuffix, hr]
  rcases rest with _ | ⟨d2, _ | ⟨d3, _ | ⟨d4, rest4⟩⟩⟩
  · rfl
  · rfl
  · rfl
  · rw [yearSuffixCore, hc]
    simp

/-- All-digit lists contain no dash. -/
theorem no_dash_of_digits (l : List Char) (h : ∀ c ∈ l, isDigitCh c = true) : '-' ∉ l :=
  fun hm => absurd (h '-' hm) (by decide)

/-- A nonempty all-digit list reversed starts with a digit. -/
theorem rev_head_of_digits (l : List Char) (hne : l ≠ []) (h : ∀ c ∈ l, isDigitCh c = true) :
    ∃ c rest, l.reverse = c :: rest ∧ isDigitCh c = true ∧ isSpaceCh c = false := by
  cases hr : l.reverse with
  | nil => exact absurd (by simpa using congrArg List.reverse hr) hne
  | cons c rest =>
    have hcl : c ∈ l := List.mem_reverse.mp (hr ▸ List.mem_cons_self c rest)
    exact ⟨c, rest, rfl, h c hcl, isSpaceCh_eq_false_of_isDigitCh c (h c hcl)⟩

/-- Reversal of an append with a known reversed tail. -/
theorem rev_append_head (X P : List Char) (c : Char) (rest : List Char)
    (hp : P.reverse = c :: rest) : (X ++ P).reverse = c :: (rest ++ X.reverse) := by
  rw [List.reverse_append, hp]
  rfl

/-- The corrector skips any row whose (stripped) WeekRange splits into two
parts of which one lacks the `,\s*(\d{4})$` year suffix. -/
theorem fixDec_skip_of_parts_none (r : Row) (q1 q2 : List Char)
    (hsp : pySplit (String.data (" - ")) (pyStrip (strOfCell r.weekRange)).data = [q1, q2])
    (hyn : yearSuffix (pyStripL q1) = none ∨ yearSuffix (pyStripL q2) = none) :
    fixDecemberRow r = r := by
  have hc : containsSub (String.data (" - ")) (pyStrip (strOfCell r.weekRange)).data = true := by
    by_contra hcne
    rw [Bool.not_eq_true] at hcne
    rw [pySplit_single_of_not_contains _ _ hcne] at hsp
    simp at hsp
  have hwr : ¬(pyStrip (strOfCell r.weekRange) = "") := by
    intro he
    rw [he] at hc
    exact absurd hc (by decide)
  have hcond : ¬((decide (pyStrip (strOfCell r.weekRange) = "") ||
      !containsSub (String.data (" - ")) (pyStrip (strOfCell r.weekRange)).data) = true) := by
    simp [hwr, hc]
  rw [fixDecemberRow]
  simp only [if_neg hcond]
  simp only [hsp]
  rcases hyn with hy | hy
  · rw [hy, decAfterYears]
    intro _ _ hx _
    exact Option.noConfusion hx
  · rw [hy, decAfterYears]
    intro _ _ _ hx
    exact Option.noConfusion hx

/-- The corrector skips any row carrying a WeekRange of the shape
`A ++ " - " ++ B` with dash-free sides, non-space outer characters, and no
year suffix on the (stripped) start part. -/
theorem fixDec_skip_of_shape (r : Row) (wr : String) (A B : List Char)
    (hw : r.weekRange = some wr)
    (hdata : wr.data = A ++ String.data (" - ") ++ B)
    (a0 : Char) (atl : List Char) (hAcons : A = a0 :: atl) (ha0 : isSpaceCh a0 = false)
    (b0 : Char) (btl : List Char) (hBrev : B.reverse = b0 :: btl) (hb0 : isSpaceCh b0 = false)
    (hAdash : '-' ∉ A) (hBdash : '-' ∉ B)
    (hyA : yearSuffix (pyStripL A) = none) :
    fixDecemberRow r = r := by
  have hstrip : pyStripL wr.data = wr.data := by
    apply pyStripL_id
    · intro c hc
      rw [hdata, hAcons] at hc
      simp only [List.cons_append, List.head?_cons, Option.some.injEq] at hc
      rw [← hc]
      exact ha0
    · intro c hc
      rw [hdata, rev_append_head (A ++ String.data (" - ")) B b0 btl hBrev] at hc
      simp only [List.head?_cons, Option.some.injEq] at hc
      rw [← hc]
      exact hb0
  have hcell : (pyStrip (strOfCell r.weekRange)).data = wr.data := by
    rw [hw]
    show (pyStrip wr).data = wr.data
    rw [pyStrip, hstrip]
  have hsp : pySplit (String.data (" - "))
      (pyStrip (strOfCell r.weekRange)).data = [A, B] := by
    rw [hcell, hdata]
    exact pySplit_mid A B hAdash hBdash
  exact fixDec_skip_of_parts_none r A B hsp (Or.inl hyA)

/-- Nonmembership passes through appends. -/
theorem not_mem_append_ch (x : Char) (l1 l2 : List Char) (h1 : x ∉ l1) (h2 : x ∉ l2) :
    x ∉ l1 ++ l2 :=
  fun hm => (List.mem_append.mp hm).elim h1 h2

/-- C10: the Boundary-Year Corrector leaves a row entirely unchanged whenever
its WeekRange does not split on `" - "` into exactly two parts, or either part
lacks the comma-and-4-digit-year suffix; in particular every WeekRange the Row
Repair Engine's generator produces — whose start part is either a bare day
number or `"DD Mon"` with no year — is always skipped by the corrector, even
when the week genuinely spans a December→January boundary. -/
theorem december_corrector_skips_generated_weekranges :
    (∀ r : Row,
      (pySplit (String.data (" - ")) (pyStrip (strOfCell r.weekRange)).data).length ≠ 2 →
      fixDecemberRow r = r) ∧
    (∀ (r : Row) (q1 q2 : List Char),
      pySplit (String.data (" - ")) (pyStrip (strOfCell r.weekRange)).data = [q1, q2] →
      (yearSuffix (pyStripL q1) = none ∨ yearSuffix (pyStripL q2) = none) →
      fixDecemberRow r = r) ∧
    (∀ (cell : Option String) (r : Row),
      generate_weekrange_from_date cell ≠ "" →
      r.weekRange = some (generate_weekrange_from_date cell) →
      fixDecemberRow r = r) := by
  refine ⟨?_, fun r q1 q2 hsp hyn => fixDec_skip_of_parts_none r q1 q2 hsp hyn, ?_⟩
  · intro r hlen
    by_cases hg : (decide (pyStrip (strOfCell r.weekRange) = "") ||
        !containsSub (String.data (" - ")) (pyStrip (strOfCell r.weekRange)).data) = true
    · rw [fixDecemberRow]
      simp only [if_pos hg]
    · rcases hsp : pySplit (String.data (" - ")) (pyStrip (strOfCell r.weekRange)).data with
        _ | ⟨q1, _ | ⟨q2, _ | ⟨q3, qt⟩⟩⟩
      · rw [fixDecemberRow]
        simp only [if_neg hg]
        simp only [hsp]
      · rw [fixDecemberRow]
        simp only [if_neg hg]
        simp only [hsp]
      · exact absurd (by rw [hsp]; rfl) hlen
      · rw [fixDecemberRow]
        simp only [if_neg hg]
        simp only [hsp]
  · intro cell r hne hw
    cases hp : strptimeList (pyStripL (strOfCell cell).data) with
    | none =>
      exfalso
      apply hne
      rw [generate_weekrange_from_date]
      simp only [hp]
    | some t =>
      rcases t with ⟨y, m, d⟩
      by_cases h1 : (decide (daysFromCivil y m d < tsMinDay) ||
          decide (tsMaxDay < daysFromCivil y m d)) = true
      · exfalso
        apply hne
        rw [generate_weekrange_from_date]
        simp only [hp]
        rw [if_pos h1]
      · obtain ⟨ws, hws⟩ : ∃ v, daysFromCivil y m d - weekdayMon (daysFromCivil y m d) = v :=
          ⟨_, rfl⟩
        by_cases h2 : (decide (ws < tsMinDay) || decide (tsMaxDay < ws + 6)) = true
        · exfalso
          apply hne
          rw [generate_weekrange_from_date]
          simp only [hp]
          rw [if_neg h1, hws, if_pos h2]
        · obtain ⟨c1v, hc1⟩ : ∃ v, civilFromDays ws = v := ⟨_, rfl⟩
          obtain ⟨c2v, hc2⟩ : ∃ v, civilFromDays (ws + 6) = v := ⟨_, rfl⟩
          rcases c1v with ⟨y1, m1, d1⟩
          rcases c2v with ⟨y2, m2, d2⟩
          have hgen0 : generate_weekrange_from_date cell =
              (if m1 = m2 then
                natToStr d1.toNat ++ " - " ++ natToStr d2.toNat ++ " " ++
                  monthAbbr m2 ++ ", " ++ pad4 y2.toNat
              else
                pad2 d1.toNat ++ " " ++ monthAbbr m1 ++ " - " ++
                  pad2 d2.toNat ++ " " ++ monthAbbr m2 ++ ", " ++ pad4 y2.toNat) := by
            rw [generate_weekrange_from_date]
            simp only [hp]
            rw [if_neg h1, hws, if_neg h2, hc1, hc2]
          by_cases h3 : m1 = m2
          · -- same-month rendering: the start part is a bare day number
            have hgen : generate_weekrange_from_date cell =
                natToStr d1.toNat ++ " - " ++ natToStr d2.toNat ++ " " ++
                  monthAbbr m2 ++ ", " ++ pad4 y2.toNat := by
              rw [hgen0, if_pos h3]
            have hA := natToStr_digits d1.toNat
            have hB4 := pad4_digits y2.toNat
            obtain ⟨a0, atl, hAcons⟩ := List.exists_cons_of_ne_nil hA.2
            obtain ⟨b0, btl, hBrev, _, hb0sp⟩ :=
              rev_head_of_digits (pad4 y2.toNat).data hB4.2 hB4.1
            obtain ⟨mc, mrest, hmrev, hmdig, hmsp, hmdash, hmne⟩ := monthAbbr_shape m2
            have hdata : (generate_weekrange_from_date cell).data =
                (natToStr d1.toNat).data ++ String.data (" - ") ++
                ((((natToStr d2.toNat).data ++ String.data (" ")) ++ (monthAbbr m2).data ++
                  String.data (", ")) ++ (pad4 y2.toNat).data) := by
              rw [hgen]
              simp [String.data_append, List.append_assoc]
            apply fixDec_skip_of_shape r (generate_weekrange_from_date cell) _ _ hw hdata
              a0 atl hAcons
              (isSpaceCh_eq_false_of_isDigitCh a0 (hA.1 a0 (hAcons ▸ List.mem_cons_self a0 atl)))
              b0 (btl ++ _) (rev_append_head _ _ b0 btl hBrev) hb0sp
              (no_dash_of_digits _ hA.1)
              (not_mem_append_ch _ _ _
                (not_mem_append_ch _ _ _
                  (not_mem_append_ch _ _ _ (no_dash_of_digits _ (natToStr_digits d2.toNat).1)
                    (by decide))
                  hmdash)
                (by decide) |> fun hx => not_mem_append_ch _ _ _ hx (no_dash_of_digits _ hB4.1))
            have hstripA : pyStripL (natToStr d1.toNat).data = (natToStr d1.toNat).data := by
              obtain ⟨ar0, artl, hArev, _, har0⟩ :=
                rev_head_of_digits (natToStr d1.toNat).data hA.2 hA.1
              apply pyStripL_id
              · intro c hc
                rw [hAcons] at hc
                simp only [List.head?_cons, Option.some.injEq] at hc
                exact hc ▸ isSpaceCh_eq_false_of_isDigitCh a0
                  (hA.1 a0 (hAcons ▸ List.mem_cons_self a0 atl))
              · intro c hc
                rw [hArev] at hc
                simp only [List.head?_cons, Option.some.injEq] at hc
                exact hc ▸ har0
            rw [hstripA]
            exact yearSuffix_none_of_all_digits _ hA.1
          · -- cross-month rendering: the start part ends with a month name
            have hgen : generate_weekrange_from_date cell =
                pad2 d1.toNat ++ " " ++ monthAbbr m1 ++ " - " ++
                  pad2 d2.toNat ++ " " ++ monthAbbr m2 ++ ", " ++ pad4 y2.toNat := by
              rw [hgen0, if_neg h3]
            have hA2 := pad2_digits d1.toNat
            have hB4 := pad4_digits y2.toNat
            obtain ⟨a0, atl0, hA2cons⟩ := List.exists_cons_of_ne_nil hA2.2
            obtain ⟨b0, btl, hBrev, _, hb0sp⟩ :=
              rev_head_of_digits (pad4 y2.toNat).data hB4.2 hB4.1
            obtain ⟨mc1, mrest1, hmrev1, hmdig1, hmsp1, hmdash1, hmne1⟩ := monthAbbr_shape m1
            obtain ⟨mc2, mrest2, hmrev2, hmdig2, hmsp2, hmdash2, hmne2⟩ := monthAbbr_shape m2
            have hdata : (generate_weekrange_from_date cell).data =
                (((pad2 d1.toNat).data ++ String.data (" ")) ++ (monthAbbr m1).data) ++
                String.data (" - ") ++
                ((((pad2 d2.toNat).data ++ String.data (" ")) ++ (monthAbbr m2).data ++
                  String.data (", ")) ++ (pad4 y2.toNat).data) := by
              rw [hgen]
              simp [String.data_append, List.append_assoc]
            have hAcons : (((pad2 d1.toNat).data ++ String.data (" ")) ++ (monthAbbr m1).data) =
                a0 :: ((atl0 ++ String.data (" ")) ++ (monthAbbr m1).data) := by
              rw [hA2cons]
              simp [List.cons_append]
            apply fixDec_skip_of_shape r (generate_weekrange_from_date cell) _ _ hw hdata
              a0 ((atl0 ++ String.data (" ")) ++ (monthAbbr m1).data) hAcons
              (isSpaceCh_eq_false_of_isDigitCh a0 (hA2.1 a0 (hA2cons ▸ List.mem_cons_self a0 atl0)))
              b0 (btl ++ _) (rev_append_head _ _ b0 btl hBrev) hb0sp
              (not_mem_append_ch _ _ _
                (not_mem_append_ch _ _ _ (no_dash_of_digits _ hA2.1) (by decide)) hmdash1)
              (not_mem_append_ch _ _ _
                (not_mem_append_ch _ _ _
                  (not_mem_append_ch _ _ _ (no_dash_of_digits _ (pad2_digits d2.toNat).1)
                    (by decide))
                  hmdash2)
                (by decide) |> fun hx => not_mem_append_ch _ _ _ hx (no_dash_of_digits _ hB4.1))
            have hArev : (((pad2 d1.toNat).data ++ String.data (" ")) ++ (monthAbbr m1).data).reverse =
                mc1 :: (mrest1 ++ ((pad2 d1.toNat).data ++ String.data (" ")).reverse) :=
              rev_append_head _ _ mc1 mrest1 hmrev1
            have hstripA : pyStripL (((pad2 d1.toNat).data ++ String.data (" ")) ++ (monthAbbr m1).data) =
                (((pad2 d1.toNat).data ++ String.data (" ")) ++ (monthAbbr m1).data) := by
              apply pyStripL_id
              · intro c hc
                rw [hAcons] at hc
                simp only [List.head?_cons, Option.some.injEq] at hc
                exact hc ▸ isSpaceCh_eq_false_of_isDigitCh a0
                  (hA2.1 a0 (hA2cons ▸ List.mem_cons_self a0 atl0))
              · intro c hc
                rw [hArev] at hc
                simp only [List.head?_cons, Option.some.injEq] at hc
                exact hc ▸ hmsp1
            rw [hstripA]
            exact yearSuffix_none_of_last_not_digit _ mc1 _ hArev hmdig1

/-- Witness for C10 at a concrete generated cross-year WeekRange. -/
theorem december_corrector_skips_generated_weekranges_witness :
    fixDecemberRow (fullRow ("5 January 2021") ("28 Dec - 03 Jan, 2021")) =
      fullRow ("5 January 2021") ("28 Dec - 03 Jan, 2021") :=
  december_corrector_skips_generated_weekranges.2.2 (some ("1 January 2021"))
    (fullRow ("5 January 2021") ("28 Dec - 03 Jan, 2021")) (by decide) (by decide)

/-! ### C7: the broken-date window scan and the year majority vote -/

/-- `range'` over `[lo, hi)` is the filter of `range n` when `hi ≤ n`. -/
theorem range'_eq_filter_range : ∀ (n lo hi : Nat), hi ≤ n →
    List.range' lo (hi - lo) =
      (List.range n).filter (fun j => decide (lo ≤ j) && decide (j < hi)) := by
  intro n
  induction n with
  | zero =>
    intro lo hi h
    interval_cases hi
    simp
  | succ n ih =>
    intro lo hi h
    by_cases hle : hi ≤ n
    · rw [List.range_succ, List.filter_append, ← ih lo hi hle]
      have hc : (decide (lo ≤ n) && decide (n < hi)) = false := by
        rw [Bool.and_eq_false_iff]
        right
        simp only [decide_eq_false_iff_not, Nat.not_lt]
        exact hle
      have hnil : (List.filter (fun j => decide (lo ≤ j) && decide (j < hi)) [n]) = [] := by
        simp only [List.filter]
        rw [hc]
      rw [hnil, List.append_nil]
    · have hhi : hi = n + 1 := le_antisymm h (Nat.lt_of_not_le hle)
      subst hhi
      by_cases hlo : lo ≤ n
      · have h1 : n + 1 - lo = (n - lo) + 1 := by omega
        rw [h1, List.range'_concat, List.range_succ, List.filter_append]
        have h2 : lo + 1 * (n - lo) = n := by omega
        rw [h2]
        have h3 : List.range' lo (n - lo) =
            (List.range n).filter (fun j => decide (lo ≤ j) && decide (j < n)) :=
          ih lo n (le_refl n)
        have h4 : (List.range n).filter (fun j => decide (lo ≤ j) && decide (j < n)) =
            (List.range n).filter (fun j => decide (lo ≤ j) && decide (j < n + 1)) := by
          apply List.filter_congr
          intro x hx
          rw [List.mem_range] at hx
          simp [hx, Nat.lt_succ_of_lt hx]
        have h5 : List.filter (fun j => decide (lo ≤ j) && decide (j < n + 1)) [n] = [n] := by
          simp [hlo]
        rw [h3, h4, h5]
      · have h0 : n + 1 - lo = 0 := by omega
        rw [h0]
        have hall : ∀ j ∈ List.range (n + 1),
            ¬((fun j => decide (lo ≤ j) && decide (j < n + 1)) j = true) := by
          intro j hj
          rw [List.mem_range] at hj
          simp only [Bool.and_eq_true, decide_eq_true_eq]
          intro ⟨ha, _⟩
          omega
        rw [List.filter_eq_nil_iff.mpr hall]
        rfl

/-- A successful probe means the value is in a slot. -/
theorem probeLoop_found_mem (slots : List (Option Nat)) (x : Nat) :
    ∀ (f j p : Nat), probeLoop f slots x j p = .found → some x ∈ slots := by
  intro f
  induction f with
  | zero =>
    intro j p h
    simp only [probeLoop] at h
    exact ProbeResult.noConfusion h
  | succ f ih =>
    intro j p h
    rw [probeLoop] at h
    cases hg : slots.get? j with
    | none =>
      simp only [hg] at h
      exact ProbeResult.noConfusion h
    | some o =>
      cases o with
      | none =>
        simp only [hg] at h
        exact ProbeResult.noConfusion h
      | some y =>
        simp only [hg] at h
        by_cases hy : y = x
        · subst hy
          exact List.get?_mem hg
        · rw [if_neg hy] at h
          exact ih _ _ h

/-- A placement result points at an empty slot. -/
theorem probeLoop_placeAt (slots : List (Option Nat)) (x : Nat) :
    ∀ (f j p k : Nat), probeLoop f slots x j p = .placeAt k →
      slots.get? k = some none := by
  intro f
  induction f with
  | zero =>
    intro j p k h
    simp only [probeLoop] at h
    exact ProbeResult.noConfusion h
  | succ f ih =>
    intro j p k h
    rw [probeLoop] at h
    cases hg : slots.get? j with
    | none =>
      simp only [hg] at h
      exact ProbeResult.noConfusion h
    | some o =>
      cases o with
      | none =>
        simp only [hg] at h
        injection h with hjk
        rw [← hjk]
        exact hg
      | some y =>
        simp only [hg] at h
        by_cases hy : y = x
        · rw [if_pos hy] at h
          exact ProbeResult.noConfusion h
        · rw [if_neg hy] at h
          exact ih _ _ _ h

/-- Setting an empty slot to `some x` makes `x` a set element. -/
theorem mem_filterMap_id_set (l : List (Option Nat)) (j : Nat) (x : Nat)
    (hj : l.get? j = some none) : x ∈ (l.set j (some x)).filterMap id := by
  have hlt : j < l.length := (List.get?_eq_some.mp hj).1
  have hget : (l.set j (some x)).get? j = some (some x) := by
    rw [List.get?_set_eq]
    rw [List.get?_eq_get hlt]
    rfl
  exact List.mem_filterMap.mpr ⟨some x, List.get?_mem hget, rfl⟩

/-- Setting an empty slot preserves the other elements. -/
theorem mem_filterMap_id_set_preserve (l : List (Option Nat)) (j : Nat) (x y : Nat)
    (hj : l.get? j = some none) (hy : y ∈ l.filterMap id) :
    y ∈ (l.set j (some x)).filterMap id := by
  obtain ⟨a, ha, hay⟩ := List.mem_filterMap.mp hy
  obtain ⟨k, hk⟩ := List.mem_iff_get?.mp ha
  have hkj : j ≠ k := by
    intro he
    rw [← he, hj] at hk
    cases hk
    exact Option.noConfusion hay
  have hk2 : (l.set j (some x)).get? k = some a := by
    rw [List.get?_set_ne _ _ hkj]
    exact hk
  exact List.mem_filterMap.mpr ⟨a, List.get?_mem hk2, hay⟩

/-- After setting a slot to `some x`, an element is an old element or `x`. -/
theorem mem_filterMap_id_set_sub (l : List (Option Nat)) (j : Nat) (x y : Nat)
    (hy : y ∈ (l.set j (some x)).filterMap id) : y ∈ l.filterMap id ∨ y = x := by
  obtain ⟨a, ha, hay⟩ := List.mem_filterMap.mp hy
  obtain ⟨k, hk⟩ := List.mem_iff_get?.mp ha
  by_cases hkj : j = k
  · subst hkj
    rw [List.get?_set_eq] at hk
    cases hg : l.get? j with
    | none =>
      rw [hg] at hk
      exact Option.noConfusion hk
    | some b =>
      rw [hg] at hk
      cases hk
      right
      cases hay
      rfl
  · rw [List.get?_set_ne _ _ hkj] at hk
    left
    exact List.mem_filterMap.mpr ⟨a, List.get?_mem hk, hay⟩

/-- One insertion only adds the inserted value. -/
theorem setIterOf_setInsert_sub (s : PySetState) (x y : Nat)
    (hy : y ∈ setIterOf (setInsert s x)) : y ∈ setIterOf s ∨ y = x := by
  cases hp : probeLoop 64 s.slots x (x % 8) x with
  | found =>
    rw [setInsert, hp] at hy
    left
    exact hy
  | placeAt j =>
    rw [setInsert, hp] at hy
    rw [setIterOf] at hy
    rcases List.mem_append.mp hy with h | h
    · rcases mem_filterMap_id_set_sub s.slots j x y h with h2 | h2
      · left
        exact List.mem_append.mpr (.inl h2)
      · right
        exact h2
    · left
      exact List.mem_append.mpr (.inr h)
  | exhausted =>
    rw [setInsert, hp] at hy
    rw [setIterOf] at hy
    rcases List.mem_append.mp hy with h | h
    · left
      exact List.mem_append.mpr (.inl h)
    · rcases List.mem_append.mp h with h2 | h2
      · left
        exact List.mem_append.mpr (.inr h2)
      · right
        simpa using h2

/-- Insertion makes the value an element. -/
theorem setIterOf_setInsert_self (s : PySetState) (x : Nat) :
    x ∈ setIterOf (setInsert s x) := by
  cases hp : probeLoop 64 s.slots x (x % 8) x with
  | found =>
    rw [setInsert, hp]
    have hmem : some x ∈ s.slots := probeLoop_found_mem s.slots x 64 (x % 8) x hp
    exact List.mem_append.mpr (.inl (List.mem_filterMap.mpr ⟨some x, hmem, rfl⟩))
  | placeAt j =>
    rw [setInsert, hp]
    have hj : s.slots.get? j = some none := probeLoop_placeAt s.slots x 64 (x % 8) x j hp
    exact List.mem_append.mpr (.inl (mem_filterMap_id_set s.slots j x hj))
  | exhausted =>
    rw [setInsert, hp]
    exact List.mem_append.mpr (.inr (List.mem_append.mpr (.inr (List.mem_singleton.mpr rfl))))

/-- Insertion preserves the existing elements. -/
theorem setIterOf_setInsert_preserve (s : PySetState) (x y : Nat)
    (hy : y ∈ setIterOf s) : y ∈ setIterOf (setInsert s x) := by
  cases hp : probeLoop 64 s.slots x (x % 8) x with
  | found =>
    rw [setInsert, hp]
    exact hy
  | placeAt j =>
    rw [setInsert, hp]
    have hj : s.slots.get? j = some none := probeLoop_placeAt s.slots x 64 (x % 8) x j hp
    rcases List.mem_append.mp hy with h | h
    · exact List.mem_append.mpr (.inl (mem_filterMap_id_set_preserve s.slots j x y hj h))
    · exact List.mem_append.mpr (.inr h)
  | exhausted =>
    rw [setInsert, hp]
    rcases List.mem_append.mp hy with h | h
    · exact List.mem_append.mpr (.inl h)
    · exact List.mem_append.mpr (.inr (List.mem_append.mpr (.inl h)))

/-- Elements of the built set come from the seed set or the inserted list. -/
theorem foldl_setInsert_sub : ∀ (xs : List Nat) (s : PySetState) (y : Nat),
    y ∈ setIterOf (xs.foldl setInsert s) → y ∈ setIterOf s ∨ y ∈ xs := by
  intro xs
  induction xs with
  | nil =>
    intro s y h
    left
    simpa using h
  | cons a t ih =>
    intro s y h
    simp only [List.foldl_cons] at h
    rcases ih (setInsert s a) y h with h2 | h2
    · rcases setIterOf_setInsert_sub s a y h2 with h3 | h3
      · left
        exact h3
      · right
        exact h3 ▸ List.mem_cons_self a t
    · right
      exact List.mem_cons_of_mem a h2

/-- Folding insertions preserves the seed set's elements. -/
theorem foldl_setInsert_preserve : ∀ (xs : List Nat) (s : PySetState) (y : Nat),
    y ∈ setIterOf s → y ∈ setIterOf (xs.foldl setInsert s) := by
  intro xs
  induction xs with
  | nil =>
    intro s y h
    simpa using h
  | cons a t ih =>
    intro s y h
    simp only [List.foldl_cons]
    exact ih (setInsert s a) y (setIterOf_setInsert_preserve s a y h)

/-- Every inserted value is an element of the built set. -/
theorem foldl_setInsert_mem : ∀ (xs : List Nat) (s : PySetState) (x : Nat),
    x ∈ xs → x ∈ setIterOf (xs.foldl setInsert s) := by
  intro xs
  induction xs with
  | nil =>
    intro s x h
    exact absurd h (List.not_mem_nil x)
  | cons a t ih =>
    intro s x h
    simp only [List.foldl_cons]
    rcases List.mem_cons.mp h with rfl | ht
    · exact foldl_setInsert_preserve t (setInsert s x) x (setIterOf_setInsert_self s x)
    · exact ih (setInsert s a) x ht

/-- `list(set(xs))` only lists elements of `xs`. -/
theorem pySetIter_sub (xs : List Nat) : ∀ y ∈ pySetIter xs, y ∈ xs := by
  intro y hy
  rcases foldl_setInsert_sub xs emptyPySet y hy with h | h
  · rw [show setIterOf emptyPySet = [] from rfl] at h
    exact absurd h (List.not_mem_nil y)
  · exact h

/-- `list(set(xs))` lists every element of `xs`. -/
theorem pySetIter_mem (xs : List Nat) (x : Nat) (hx : x ∈ xs) : x ∈ pySetIter xs :=
  foldl_setInsert_mem xs emptyPySet x hx

/-- Python's `max(..., key=count)` fold: the result is the seed or a member,
and its count dominates the seed's count and every member's count. -/
theorem foldl_maxByCount (xs : List Nat) :
    ∀ (rest : List Nat) (cur : Nat),
      (rest.foldl (fun cur y => if xs.count y > xs.count cur then y else cur) cur = cur ∨
       rest.foldl (fun cur y => if xs.count y > xs.count cur then y else cur) cur ∈ rest) ∧
      xs.count cur ≤
        xs.count (rest.foldl (fun cur y => if xs.count y > xs.count cur then y else cur) cur) ∧
      ∀ y ∈ rest, xs.count y ≤
        xs.count (rest.foldl (fun cur y => if xs.count y > xs.count cur then y else cur) cur) := by
  intro rest
  induction rest with
  | nil =>
    intro cur
    refine ⟨.inl rfl, le_refl _, ?_⟩
    intro y hy
    exact absurd hy (List.not_mem_nil y)
  | cons z t ih =>
    intro cur
    simp only [List.foldl_cons]
    obtain ⟨hmem, hle, hall⟩ := ih (if xs.count z > xs.count cur then z else cur)
    refine ⟨?_, ?_, ?_⟩
    · rcases hmem with h | h
      · rw [h]
        by_cases hz : xs.count z > xs.count cur
        · right
          rw [if_pos hz]
          exact List.mem_cons_self z t
        · left
          rw [if_neg hz]
      · right
        exact List.mem_cons_of_mem z h
    · refine le_trans ?_ hle
      by_cases hz : xs.count z > xs.count cur
      · rw [if_pos hz]
        exact le_of_lt hz
      · rw [if_neg hz]
    · intro y hy
      rcases List.mem_cons.mp hy with rfl | hyt
      · refine le_trans ?_ hle
        by_cases hz : xs.count y > xs.count cur
        · rw [if_pos hz]
        · rw [if_neg hz]
          exact Nat.le_of_not_lt hz
      · exact hall y hyt

/-- `max(set(xs), key=xs.count)` is an element of `xs` of maximal count. -/
theorem most_common_year_spec (xs : List Nat) (hne : xs ≠ []) :
    most_common_year xs ∈ xs ∧
      ∀ y ∈ xs, xs.count y ≤ xs.count (most_common_year xs) := by
  have hne' : pySetIter xs ≠ [] := by
    obtain ⟨a, t, h⟩ := List.exists_cons_of_ne_nil hne
    exact List.ne_nil_of_mem (pySetIter_mem xs a (h ▸ List.mem_cons_self a t))
  obtain ⟨a, t, hat⟩ := List.exists_cons_of_ne_nil hne'
  have hmc : most_common_year xs =
      t.foldl (fun cur y => if xs.count y > xs.count cur then y else cur) a := by
    rw [most_common_year, hat]
    simp only [pyMaxByCount]
  obtain ⟨hmem, hle, hall⟩ := foldl_maxByCount xs t a
  constructor
  · have hr : most_common_year xs ∈ pySetIter xs := by
      rw [hat, hmc]
      rcases hmem with h | h
      · rw [h]
        exact List.mem_cons_self a t
      · exact List.mem_cons_of_mem a h
    exact pySetIter_sub xs _ hr
  · intro y hy
    have hy' : y ∈ pySetIter xs := pySetIter_mem xs y hy
    rw [hat] at hy'
    rw [hmc]
    rcases List.mem_cons.mp hy' with rfl | hyt
    · exact hle
    · exact hall y hyt

/-- Modelled from the spec's words, for comparison with the code: the most
frequently occurring year with ties broken by FIRST-ENCOUNTERED in iteration
order — Python's `max(nearby_years, key=nearby_years.count)`, iterating the
collected list itself rather than the set built from it. -/
def specMostCommonYear (xs : List Nat) : Nat := pyMaxByCount xs xs

/-- Modelled from the spec's words: `fix_broken_date` with the spec's
first-encountered tie-break in place of the code's set-iteration tie-break. -/
def specFixBrokenDate (df : List Row) (idx : Nat) : String :=
  let broken := pyStrip (strOfCell (dateCellAt df idx))
  match extract_month_day broken.data with
  | none => broken
  | some md =>
    match nearbyYearsOf df idx with
    | [] => String.mk md ++ " " ++ natToStr 2024
    | _ :: _ => String.mk md ++ " " ++ natToStr (specMostCommonYear (nearbyYearsOf df idx))

/-- A window with a frequency tie between 2021 (encountered first) and 2020. -/
def c7TieDf : List Row :=
  [fullRow ("5 January") (""), fullRow ("1 March 2021") (""), fullRow ("1 March 2020") ("")]

/-- The claim's own three-row example batch. -/
def c7ExDf : List Row :=
  [fullRow ("5 January") (""), fullRow ("5 January 2021") (""),
    fullRow ("6 January 2021") ("")]

/-- C7: the claim's tie-break is wrong. On a window whose year tokens are
`[2021, 2020]` — a frequency tie with 2021 encountered first — the code's
`max(set(nearby_years), key=nearby_years.count)` iterates the CPython set
`{2021, 2020}` in hash-slot order `2020, 2021` and repairs to
"5 January 2020", while the claim's first-encountered rule would give
"5 January 2021". -/
theorem repair_tiebreak_not_first_encountered_cex :
    fix_broken_date c7TieDf 0 = "5 January 2020" ∧
    specFixBrokenDate c7TieDf 0 = "5 January 2021" ∧
    fix_broken_date c7TieDf 0 ≠ specFixBrokenDate c7TieDf 0 := by decide

/-- C7 amended: when the broken Date yields a month-day, the scanned window
is exactly positions `idx-20 … idx+20` clipped to the batch and excluding
`idx` (first 4-digit year token of each such row); with no year found the
Date becomes "month_day 2024"; otherwise it becomes "month_day Y" where `Y`
is a year of maximal frequency among those found (the tie-break is CPython
set iteration order, not first-encountered); the claim's three-row example
does repair to "5 January 2021". -/
theorem repair_window_majority_contract (df : List Row) (idx : Nat) (md : List Char)
    (hmd : extract_month_day (pyStrip (strOfCell (dateCellAt df idx))).data = some md) :
    nearbyYearsOf df idx =
      ((List.range df.length).filter
        (fun j => decide (idx ≤ j + 20) && decide (j ≤ idx + 20) && decide (j ≠ idx))).filterMap
        (fun i => findFirstYear (pyStripL (strOfCell (dateCellAt df i)).data)) ∧
    (nearbyYearsOf df idx = [] →
      fix_broken_date df idx = String.mk md ++ " " ++ natToStr 2024) ∧
    (nearbyYearsOf df idx ≠ [] →
      fix_broken_date df idx =
        String.mk md ++ " " ++ natToStr (most_common_year (nearbyYearsOf df idx)) ∧
      most_common_year (nearbyYearsOf df idx) ∈ nearbyYearsOf df idx ∧
      ∀ y ∈ nearbyYearsOf df idx,
        (nearbyYearsOf df idx).count y ≤
          (nearbyYearsOf df idx).count (most_common_year (nearbyYearsOf df idx))) ∧
    fix_broken_date c7ExDf 0 = "5 January 2021" := by
  refine ⟨?_, ?_, ?_, by decide⟩
  · simp only [nearbyYearsOf]
    rw [range'_eq_filter_range df.length (idx - 20) (min df.length (idx + 20 + 1))
      (Nat.min_le_left _ _)]
    rw [List.filter_filter]
    apply congrArg
    apply List.filter_congr
    intro j hj
    rw [List.mem_range] at hj
    rw [Bool.eq_iff_iff]
    simp only [Bool.and_eq_true, decide_eq_true_eq]
    constructor
    · intro hx
      omega
    · intro hx
      omega
  · intro hnil
    simp only [fix_broken_date, hmd]
    rw [hnil]
  · intro hne
    refine ⟨?_, (most_common_year_spec _ hne).1, (most_common_year_spec _ hne).2⟩
    obtain ⟨a, t, hat⟩ := List.exists_cons_of_ne_nil hne
    simp only [fix_broken_date, hmd]
    rw [hat]

/-- Witness for C7's amended theorem on the claim's example batch. -/
theorem repair_window_majority_contract_witness :
    extract_month_day (pyStrip (strOfCell (dateCellAt c7ExDf 0))).data =
      some (String.data ("5 January")) ∧
    nearbyYearsOf c7ExDf 0 ≠ [] ∧
    fix_broken_date c7ExDf 0 =
      String.mk (String.data ("5 January")) ++ " " ++
        natToStr (most_common_year (nearbyYearsOf c7ExDf 0)) :=
  ⟨by decide, by decide,
    ((repair_window_majority_contract c7ExDf 0 (String.data ("5 January"))
        (by decide)).2.2.1 (by decide)).1⟩

end NewsPipeline
